import Mathlib

/-!
Verification of the MCP security proxy middleware
(`mcp_security_proxy/intermediate.py`).

This file shallowly embeds the request-dispatch, policy-decision and
response-envelope-rewriting pipeline of the proxy:

* a JSON value type together with executable models of Python's
  `json.dumps` (compact form, `ensure_ascii`, integer numbers) and
  `json.loads` (restricted to integer numbers: payloads with float
  literals are outside the model and make the embedded `loads` fail),
* the streaming-envelope codec used by `updated_handle_tools_list`
  (find the first `data: ` line of the stripped body, parse the rest),
* the argument sanitizer `sanitize_input` with the concrete denylist
  patterns of `SecurityConfig.dangerous_patterns`,
* the policy primitives `is_tool_allowed`, `check_rate_limit` and the
  `/api/toggle-tool` mutation,
* the `tools/list` filtering pipeline and the `tools/call` handler
  `handle_tool_call` as a pure state-transformer whose result records
  the body (if any) that was forwarded upstream.

Python exceptions that escape a handler are modeled as `PyErr` values:
the FastAPI layer turns them into HTTP 500 internal errors.
-/

/-- A JSON value.  Numbers are modeled as integers: every JSON-RPC id and
counter in the proxy's payloads is integral, and float arithmetic is
outside the embedding (the embedded `loads` rejects float literals). -/
inductive Json where
  | null
  | bool (b : Bool)
  | num (n : Int)
  | str (s : String)
  | arr (elems : List Json)
  | obj (fields : List (String × Json))

/-- First-match association-list lookup; Python dicts have unique keys, so
this is `dict.get` on the embedded field list. -/
def alookup {α : Type} : List (String × α) → String → Option α
  | [], _ => none
  | (k, v) :: t, key => if k = key then some v else alookup t key

/-- Association-list update, modelling `d[k] = v` on a Python dict. -/
def aset {α : Type} : List (String × α) → String → α → List (String × α)
  | [], key, v => [(key, v)]
  | (k, w) :: t, key, v => if k = key then (key, v) :: t else (k, w) :: aset t key v

/-- Decimal digit character, `digitChar k = chr(48 + k)` for `k < 10`. -/
def digitChar (k : Nat) : Char := Char.ofNat (48 + k)

/-- Lower-case hex digit character for `k < 16`, as CPython's `json`
encoder emits in `\uXXXX` escapes. -/
def hexChar (k : Nat) : Char :=
  if k < 10 then Char.ofNat (48 + k) else Char.ofNat (87 + k)

/-- Decimal digits, fuelled so the recursion is structural and the kernel
can evaluate it; `fuel ≥ n` always suffices. -/
def natCharsAux : Nat → Nat → List Char
  | 0, n => [digitChar (n % 10)]
  | fuel + 1, n => if n < 10 then [digitChar n] else natCharsAux fuel (n / 10) ++ [digitChar (n % 10)]

/-- Decimal digits of a natural number, most significant first; the same
character sequence `repr(n)` produces. -/
def natChars (n : Nat) : List Char := natCharsAux n n

/-- Decimal form of a Python integer: optional minus sign, then digits. -/
def intChars : Int → List Char
  | Int.ofNat n => natChars n
  | Int.negSucc m => '-' :: natChars (m + 1)

/-- Four lower-case hex digits of `n < 0x10000`, as in a `\uXXXX` escape. -/
def hexQuadChars (n : Nat) : List Char :=
  [hexChar (n / 4096 % 16), hexChar (n / 256 % 16), hexChar (n / 16 % 16), hexChar (n % 16)]

/-- The `\uXXXX` escape of the code point `n`; code points beyond the basic
plane become a UTF-16 surrogate pair, exactly as `ensure_ascii` output. -/
def uEsc (n : Nat) : List Char :=
  if n < 0x10000 then '\\' :: 'u' :: hexQuadChars n
  else
    ('\\' :: 'u' :: hexQuadChars (0xd800 + (n - 0x10000) / 0x400)) ++
      ('\\' :: 'u' :: hexQuadChars (0xdc00 + (n - 0x10000) % 0x400))

/-- How `json.dumps` (default `ensure_ascii=True`) renders one character of
a string: named escapes for the two-character escapes, `\uXXXX` for every
other character outside printable ASCII, the character itself otherwise. -/
def escSeqChar (c : Char) : List Char :=
  if c = '"' then ['\\', '"']
  else if c = '\\' then ['\\', '\\']
  else if c = '\n' then ['\\', 'n']
  else if c = '\r' then ['\\', 'r']
  else if c = '\t' then ['\\', 't']
  else if c = '\x08' then ['\\', 'b']
  else if c = '\x0c' then ['\\', 'f']
  else if c.toNat < 0x20 ∨ 0x7e < c.toNat then uEsc c.toNat
  else [c]

/-- Escaped body of a JSON string literal. -/
def escSeq : List Char → List Char
  | [] => []
  | c :: t => escSeqChar c ++ escSeq t

mutual
/-- Characters of `json.dumps(v)` with CPython's default separators
(`", "` between items, `": "` after keys). -/
def jdump : Json → List Char
  | Json.null => ['n', 'u', 'l', 'l']
  | Json.bool true => ['t', 'r', 'u', 'e']
  | Json.bool false => ['f', 'a', 'l', 's', 'e']
  | Json.num i => intChars i
  | Json.str s => '"' :: (escSeq s.data ++ ['"'])
  | Json.arr es => '[' :: (jdumpElems es ++ [']'])
  | Json.obj fs => '\x7b' :: (jdumpFields fs ++ ['\x7d'])
/-- Array items joined by `", "`. -/
def jdumpElems : List Json → List Char
  | [] => []
  | v :: vs => jdump v ++ jdumpElemsRest vs
def jdumpElemsRest : List Json → List Char
  | [] => []
  | v :: vs => ',' :: ' ' :: (jdump v ++ jdumpElemsRest vs)
/-- Object members `"key": value` joined by `", "`. -/
def jdumpFields : List (String × Json) → List Char
  | [] => []
  | (k, v) :: fs => '"' :: (escSeq k.data ++ '"' :: ':' :: ' ' :: (jdump v ++ jdumpFieldsRest fs))
def jdumpFieldsRest : List (String × Json) → List Char
  | [] => []
  | (k, v) :: fs => ',' :: ' ' :: '"' :: (escSeq k.data ++ '"' :: ':' :: ' ' :: (jdump v ++ jdumpFieldsRest fs))
end

/-- The string `json.dumps(v)`. -/
def dumps (v : Json) : String := ⟨jdump v⟩

/-- Value of one hex digit (either case, as `json.loads` accepts). -/
def hexDigitVal (c : Char) : Option Nat :=
  if 48 ≤ c.toNat ∧ c.toNat ≤ 57 then some (c.toNat - 48)
  else if 97 ≤ c.toNat ∧ c.toNat ≤ 102 then some (c.toNat - 87)
  else if 65 ≤ c.toNat ∧ c.toNat ≤ 70 then some (c.toNat - 55)
  else none

/-- Value of a four-hex-digit group. -/
def hexQuad (a b c d : Char) : Option Nat :=
  match hexDigitVal a, hexDigitVal b, hexDigitVal c, hexDigitVal d with
  | some x, some y, some z, some w => some (x * 4096 + y * 256 + z * 16 + w)
  | _, _, _, _ => none

/-- The character a two-character escape stands for. -/
def escMap : Char → Option Char
  | '"' => some '"'
  | '\\' => some '\\'
  | '/' => some '/'
  | 'b' => some '\x08'
  | 'f' => some '\x0c'
  | 'n' => some '\n'
  | 'r' => some '\r'
  | 't' => some '\t'
  | _ => none

/-- Body of a JSON string literal after the opening quote, fuelled (one
unit per decoded character, so the recursion is structural on the fuel
and one step unfolds definitionally): returns the decoded characters
together with the input after the closing quote.  A `\uXXXX` high
surrogate must be followed by a low surrogate (a lone surrogate has no
`Char` counterpart, so the model rejects it); raw control characters are
rejected as with `json.loads`'s default `strict=True`. -/
def parseJStrF : Nat → List Char → Option (List Char × List Char)
  | 0, _ => none
  | fuel + 1, l =>
    match l with
    | [] => none
    | c :: rest =>
      if c = '"' then some ([], rest)
      else if c = '\\' then
        match rest with
        | 'u' :: h1 :: h2 :: h3 :: h4 :: r2 =>
          match hexQuad h1 h2 h3 h4 with
          | none => none
          | some n =>
            if 0xd800 ≤ n ∧ n < 0xdc00 then
              match r2 with
              | '\\' :: 'u' :: g1 :: g2 :: g3 :: g4 :: r3 =>
                match hexQuad g1 g2 g3 g4 with
                | some m =>
                  if 0xdc00 ≤ m ∧ m < 0xe000 then
                    (parseJStrF fuel r3).map fun pr =>
                      (Char.ofNat (0x10000 + (n - 0xd800) * 0x400 + (m - 0xdc00)) :: pr.1, pr.2)
                  else none
                | none => none
              | _ => none
            else if 0xdc00 ≤ n ∧ n < 0xe000 then none
            else (parseJStrF fuel r2).map fun pr => (Char.ofNat n :: pr.1, pr.2)
        | e :: r2 =>
          match escMap e with
          | some ch => (parseJStrF fuel r2).map fun pr => (ch :: pr.1, pr.2)
          | none => none
        | [] => none
      else if c.toNat < 0x20 then none
      else (parseJStrF fuel rest).map fun pr => (c :: pr.1, pr.2)

/-- The string-body parser: fuel `l.length` always suffices because every
step of `parseJStrF` consumes at least one character. -/
def parseJStr (l : List Char) : Option (List Char × List Char) := parseJStrF l.length l

/-- Decimal digit test on characters. -/
def isDigitCh (c : Char) : Bool := 48 ≤ c.toNat ∧ c.toNat ≤ 57

/-- Longest digit run at the head of the input, with the remainder. -/
def grabDigits : List Char → List Char × List Char
  | [] => ([], [])
  | c :: rest =>
    if isDigitCh c then
      let pr := grabDigits rest
      (c :: pr.1, pr.2)
    else ([], c :: rest)

/-- Numeric value of a digit run. -/
def digitsVal (ds : List Char) : Nat :=
  List.foldl (fun a c => a * 10 + (c.toNat - 48)) 0 ds

/-- True when the input cannot extend a number token: empty, or headed by
a character that is no digit and none of `.`, `e`, `E`.  A head of `.`,
`e` or `E` would make the token a float literal, which the integer-only
model rejects. -/
def stopsNum : List Char → Bool
  | [] => true
  | c :: _ => !(isDigitCh c || c = '.' || c = 'e' || c = 'E')

/-- Integer token parser: optional minus sign, then a nonempty digit run
not followed by a float continuation. -/
def parseIntTok : List Char → Option (Int × List Char)
  | [] => none
  | c :: rest =>
    if c = '-' then
      let pr := grabDigits rest
      if pr.1 = [] then none
      else if stopsNum pr.2 then some (-(digitsVal pr.1 : Int), pr.2) else none
    else
      let pr := grabDigits (c :: rest)
      if pr.1 = [] then none
      else if stopsNum pr.2 then some ((digitsVal pr.1 : Int), pr.2) else none

/-- JSON insignificant whitespace. -/
def isJsonWs (c : Char) : Bool := c = ' ' || c = '\t' || c = '\n' || c = '\r'

/-- Skip insignificant whitespace. -/
def dropWs (l : List Char) : List Char := l.dropWhile isJsonWs

mutual
/-- Fuelled JSON value parser; one unit of fuel per grammar-rule entry, so
`input.length + 1` fuel always suffices for input the grammar accepts. -/
def pvalue : Nat → List Char → Option (Json × List Char)
  | 0, _ => none
  | fuel + 1, input =>
    match dropWs input with
    | [] => none
    | c :: rest =>
      if c = '"' then (parseJStr rest).map fun pr => (Json.str ⟨pr.1⟩, pr.2)
      else if c = '[' then
        match dropWs rest with
        | [] => none
        | d :: r => if d = ']' then some (Json.arr [], r)
                    else (pelems fuel (d :: r)).map fun pr => (Json.arr pr.1, pr.2)
      else if c = '\x7b' then
        match dropWs rest with
        | [] => none
        | d :: r => if d = '\x7d' then some (Json.obj [], r)
                    else (pfields fuel (d :: r)).map fun pr => (Json.obj pr.1, pr.2)
      else if c = 'n' then
        match rest with
        | 'u' :: 'l' :: 'l' :: r => some (Json.null, r)
        | _ => none
      else if c = 't' then
        match rest with
        | 'r' :: 'u' :: 'e' :: r => some (Json.bool true, r)
        | _ => none
      else if c = 'f' then
        match rest with
        | 'a' :: 'l' :: 's' :: 'e' :: r => some (Json.bool false, r)
        | _ => none
      else if c = '-' ∨ isDigitCh c then
        (parseIntTok (c :: rest)).map fun pr => (Json.num pr.1, pr.2)
      else none
/-- One-or-more comma-separated array items (the empty array is handled in
`pvalue`). -/
def pelems : Nat → List Char → Option (List Json × List Char)
  | 0, _ => none
  | fuel + 1, input =>
    match pvalue fuel input with
    | none => none
    | some (v, r) =>
      match dropWs r with
      | [] => none
      | d :: r2 =>
        if d = ',' then (pelems fuel r2).map fun pr => (v :: pr.1, pr.2)
        else if d = ']' then some ([v], r2)
        else none
/-- One-or-more `"key": value` object members (the empty object is handled
in `pvalue`). -/
def pfields : Nat → List Char → Option (List (String × Json) × List Char)
  | 0, _ => none
  | fuel + 1, input =>
    match dropWs input with
    | [] => none
    | c :: rest =>
      if c = '"' then
        match parseJStr rest with
        | none => none
        | some (k, r1) =>
          match dropWs r1 with
          | [] => none
          | d :: r2 =>
            if d = ':' then
              match pvalue fuel r2 with
              | none => none
              | some (v, r3) =>
                match dropWs r3 with
                | [] => none
                | e :: r4 =>
                  if e = ',' then (pfields fuel r4).map fun pr => ((⟨k⟩, v) :: pr.1, pr.2)
                  else if e = '\x7d' then some ([(⟨k⟩, v)], r4)
                  else none
            else none
      else none
end

/-- The embedded `json.loads` on characters: parse one value and require
that only whitespace remains. -/
def loadsChars (l : List Char) : Option Json :=
  match pvalue (l.length + 1) l with
  | some (j, r) => if dropWs r = [] then some j else none
  | none => none

/-- The embedded `json.loads`. -/
def loads (s : String) : Option Json := loadsChars s.data

/-- Whitespace for Python's `str.strip` (the ASCII fragment; the frames at
hand contain no exotic Unicode spaces). -/
def isStripWs (c : Char) : Bool :=
  c = ' ' || c = '\t' || c = '\n' || c = '\r' || c = '\x0b' || c = '\x0c'

/-- Python `str.strip`. -/
def stripEnds (l : List Char) : List Char :=
  ((l.dropWhile isStripWs).reverse.dropWhile isStripWs).reverse

/-- Python `str.split('\n')`. -/
def linesOf : List Char → List (List Char)
  | [] => [[]]
  | c :: rest =>
    if c = '\n' then [] :: linesOf rest
    else
      match linesOf rest with
      | [] => [[c]]
      | ln :: lns => (c :: ln) :: lns

/-- The `data: ` prefix the codec looks for. -/
def dataHead : List Char := "data: ".data

/-- Envelope decode, as `updated_handle_tools_list` performs it: strip the
body, split into lines, take the first line starting with `data: `, drop
the six-character prefix, and `json.loads` the remainder.  `none` covers
both failure modes (`StopIteration` when no such line exists, and a JSON
parse error). -/
def decodeFrame (l : List Char) : Option Json :=
  match (linesOf (stripEnds l)).find? (fun ln => dataHead.isPrefixOf ln) with
  | some ln => loadsChars (ln.drop 6)
  | none => none

/-- Envelope encode: the canonical frame
`event: message\ndata: <json>\r\n\r\n`. -/
def encodeFrame (j : Json) : List Char :=
  "event: message\ndata: ".data ++ jdump j ++ ['\r', '\n', '\r', '\n']

/-- One token of a compiled denylist pattern: a literal character (matched
case-insensitively under `re.IGNORECASE`) or `\s*`. -/
inductive PTok where
  | lit (c : Char)
  | wsStar

/-- Python regex `\s` on the ASCII range. -/
def pyIsSpace (c : Char) : Bool :=
  c = ' ' || c = '\t' || c = '\n' || c = '\r' || c = '\x0b' || c = '\x0c'

/-- Match a compiled pattern at the head of the input, returning the input
after the match.  `\s*` is taken greedily with no backtracking, which
agrees with the regex engine here because in every pattern of
`dangerous_patterns` the token after `\s*` is `(`, never whitespace. -/
def matchPat : List PTok → List Char → Option (List Char)
  | [], rest => some rest
  | PTok.lit _ :: _, [] => none
  | PTok.lit c :: ps, x :: rest => if x.toLower = c.toLower then matchPat ps rest else none
  | PTok.wsStar :: ps, l => matchPat ps (l.dropWhile pyIsSpace)

/-- The sentinel the sanitizer substitutes for each match. -/
def blockedChars : List Char := "[BLOCKED]".data

/-- Left-to-right scan of `re.sub`: at each position try the pattern; on a
match emit the sentinel and continue after the match, otherwise keep the
character.  Fuelled by the input length, which suffices because every
`dangerous_patterns` pattern starts with a literal and so consumes at
least one character. -/
def subAllAux (p : List PTok) : Nat → List Char → List Char
  | 0, l => l
  | _ + 1, [] => []
  | fuel + 1, c :: cs =>
    match matchPat p (c :: cs) with
    | some rest => blockedChars ++ subAllAux p fuel rest
    | none => c :: subAllAux p fuel cs

/-- `re.sub(p, "[BLOCKED]", l, flags=re.IGNORECASE)`. -/
def subAll (p : List PTok) (l : List Char) : List Char := subAllAux p l.length l

/-- Literal-only compiled pattern. -/
def litPat (s : String) : List PTok := s.data.map PTok.lit

/-- The compiled `SecurityConfig.dangerous_patterns`, in source order:
`eval\s*\(`, `exec\s*\(`, `__import__`, `subprocess`, `os\.system`,
`shell=True`. -/
def dangerousPatterns : List (List PTok) :=
  [ litPat "eval" ++ [PTok.wsStar, PTok.lit '('],
    litPat "exec" ++ [PTok.wsStar, PTok.lit '('],
    litPat "__import__",
    litPat "subprocess",
    litPat "os.system",
    litPat "shell=True" ]

/-- Apply every pattern in order to a string value, as the inner loop of
`sanitize_input` does. -/
def sanitizeString (pats : List (List PTok)) (s : String) : String :=
  ⟨List.foldl (fun cs p => subAll p cs) s.data pats⟩

mutual
/-- `sanitize_input` on a dict: rebuild every entry with its value pushed
through the per-value dispatch below. -/
def sanitizeFields (pats : List (List PTok)) : List (String × Json) → List (String × Json)
  | [] => []
  | (k, v) :: rest => (k, sanitizeValue pats v) :: sanitizeFields pats rest
/-- Per-value dispatch of `sanitize_input`: strings get the pattern
substitutions, dicts recurse, lists get the item treatment below, and
every other value passes through unchanged. -/
def sanitizeValue (pats : List (List PTok)) : Json → Json
  | Json.str s => Json.str (sanitizeString pats s)
  | Json.obj fs => Json.obj (sanitizeFields pats fs)
  | Json.arr items => Json.arr (sanitizeItems pats items)
  | v => v
/-- The list comprehension of `sanitize_input`: only items that are dicts
recurse; every other item — strings included — is kept as-is. -/
def sanitizeItems (pats : List (List PTok)) : List Json → List Json
  | [] => []
  | Json.obj fs :: rest => Json.obj (sanitizeFields pats fs) :: sanitizeItems pats rest
  | item :: rest => item :: sanitizeItems pats rest
end

/-- The policy half of `SecurityConfig` (the rate-limit table lives in
`ProxyState` so state can be threaded functionally). -/
structure SecurityConfig where
  blocked_tools : List String
  allowed_tools : List String
  input_sanitization_enabled : Bool
  dangerous_patterns : List (List PTok)

/-- The fresh configuration `SecurityConfig.__init__` builds. -/
def initialConfig : SecurityConfig :=
  { blocked_tools := [], allowed_tools := [],
    input_sanitization_enabled := true, dangerous_patterns := dangerousPatterns }

/-- One per-tool rate-limit window, one entry of `rate_limits`. -/
structure RateLimit where
  calls_per_minute : Nat
  last_reset : Int
  call_count : Nat

/-- `is_tool_allowed`: blocked membership rejects; otherwise a non-empty
allow-list rejects names outside it. -/
def is_tool_allowed (cfg : SecurityConfig) (tool_name : String) : Bool :=
  if tool_name ∈ cfg.blocked_tools then false
  else if cfg.allowed_tools ≠ [] ∧ tool_name ∉ cfg.allowed_tools then false
  else true

/-- The `/api/toggle-tool` endpoint body: enabling discards from blocked
and adds to allowed; disabling discards from allowed and adds to blocked.
`List.filter` plays `set.discard`, guarded insertion plays `set.add`. -/
def toggle_tool (cfg : SecurityConfig) (tool_name : String) (enabled : Bool) : SecurityConfig :=
  if enabled then
    { cfg with
      blocked_tools := cfg.blocked_tools.filter (fun t => t ≠ tool_name),
      allowed_tools := if tool_name ∈ cfg.allowed_tools then cfg.allowed_tools
                       else tool_name :: cfg.allowed_tools }
  else
    { cfg with
      allowed_tools := cfg.allowed_tools.filter (fun t => t ≠ tool_name),
      blocked_tools := if tool_name ∈ cfg.blocked_tools then cfg.blocked_tools
                       else tool_name :: cfg.blocked_tools }

/-- `check_rate_limit` on one window: lazily reset an expired window, fail
when the count has reached the cap, otherwise count the call in the same
step.  Returns the verdict with the window as stored back (the source
mutates the dict in place, so the lazy reset persists even on failure). -/
def check_rate_limit (now : Int) (w : RateLimit) : Bool × RateLimit :=
  let w := if now - w.last_reset ≥ 60 then { w with call_count := 0, last_reset := now } else w
  if w.call_count ≥ w.calls_per_minute then (false, w)
  else (true, { w with call_count := w.call_count + 1 })

/-- Run `n` rate-limit checks back to back at one instant, collecting the
verdicts. -/
def checkN : Nat → Int → RateLimit → List Bool × RateLimit
  | 0, _, w => ([], w)
  | n + 1, now, w =>
    let pr := check_rate_limit now w
    let prs := checkN n now pr.2
    (pr.1 :: prs.1, prs.2)

/-- The defaultdict lookup `rate_limits[tool]`: a missing key materializes
`{'calls_per_minute': 60, 'last_reset': time.time(), 'call_count': 0}`. -/
def getRateLimit (m : List (String × RateLimit)) (tool : String) (now : Int) : RateLimit :=
  match alookup m tool with
  | some w => w
  | none => { calls_per_minute := 60, last_reset := now, call_count := 0 }

/-- Usage counter read on the `tool_usage_counts` defaultdict. -/
def usageOf (m : List (String × Nat)) (tool : String) : Nat :=
  match alookup m tool with
  | some n => n
  | none => 0

/-- A Python exception that escapes the handler; FastAPI renders each of
these as an HTTP 500 internal error.  `nonStringName` marks a
`params.name` that is not a string — the source annotates `tool_name:
str`, so such requests are outside the modeled interface. -/
inductive PyErr where
  | attributeError
  | keyError
  | typeError
  | nameError
  | jsonError
  | nonStringName
deriving DecidableEq

/-- Outcome of `handle_tool_call` as seen by the client. -/
inductive ToolCallOutcome where
  | notConnected
  | forbidden
  | rateLimited
  | injectionBlocked (payload : List Char)
  | pyError (e : PyErr)
  | success (body : List Char) (status : Nat)

/-- True exactly on the clean forwarding outcome. -/
def ToolCallOutcome.isSuccess : ToolCallOutcome → Bool
  | ToolCallOutcome.success _ _ => true
  | _ => false

/-- Mutable middleware state a `tools/call` touches: the policy
configuration, the rate-limit table and the usage counters. -/
structure ProxyState where
  config : SecurityConfig
  rate_limits : List (String × RateLimit)
  tool_usage_counts : List (String × Nat)

/-- What one upstream HTTP exchange returned. -/
structure UpstreamResp where
  body : List Char
  status : Nat

/-- Result of `handle_tool_call`: the outcome, the state left behind, and
the body that was forwarded upstream (`none` when the request terminated
before any upstream call). -/
structure ToolCallResult where
  outcome : ToolCallOutcome
  state : ProxyState
  forwarded : Option (List Char)

/-- Extraction of `params.name` / `params.arguments` from the request
body: a missing or non-dict `params` raises `AttributeError` (`.get` on
`None` or on a non-dict); a missing `arguments` defaults to `{}`. -/
def extract_call (data : Json) : Except PyErr (String × Json) :=
  match data with
  | Json.obj fields =>
    match alookup fields "params" with
    | some (Json.obj ps) =>
      match alookup ps "name" with
      | some (Json.str n) =>
        Except.ok (n, (alookup ps "arguments").getD (Json.obj []))
      | _ => Except.error PyErr.nonStringName
    | _ => Except.error PyErr.attributeError
  | _ => Except.error PyErr.attributeError

/-- The exact prefix the injection branch tests with
`response_string.startswith('event: message\r\ndata: ')`. -/
def injectionPrefix : List Char := "event: message\r\ndata: ".data

/-- The safe payload built on a positive injection verdict for a frame
that matched `injectionPrefix`, with the recovered id spliced in. -/
def injectionPayload (idv : Json) : List Char :=
  "event: message\ndata: ".data ++
    jdump (Json.obj
      [("jsonrpc", Json.str "2.0"),
       ("id", idv),
       ("result", Json.obj
         [("content", Json.arr
           [Json.obj [("type", Json.str "text"),
                      ("text", Json.str "Tool response blocked: prompt injection detected.")]]),
          ("isError", Json.bool true)])]) ++
    ['\r', '\n', '\r', '\n']

/-- Lines 329–431 of `handle_tool_call`: forward the raw inbound body
upstream, run the Detector on the response text, and either substitute a
safe payload (injection verdict) or return the upstream body unchanged
and count the usage.  In the injection branch, a response that does not
start with `injectionPrefix` reaches a `return` that reads the
never-assigned local `response_data`, raising `UnboundLocalError`
(modeled as `PyErr.nameError`). -/
def forward_and_filter (st1 : ProxyState) (tool_name : String) (rawBody : List Char)
    (upstream : List Char → UpstreamResp) (isInjection : List Char → Bool) :
    ToolCallResult :=
  let resp := upstream rawBody
  if isInjection resp.body then
    if injectionPrefix.isPrefixOf resp.body then
      match loadsChars (resp.body.drop 22) with
      | some (Json.obj rfields) =>
        match alookup rfields "id" with
        | some idv =>
          { outcome := ToolCallOutcome.injectionBlocked (injectionPayload idv),
            state := st1, forwarded := some rawBody }
        | none =>
          { outcome := ToolCallOutcome.pyError PyErr.keyError,
            state := st1, forwarded := some rawBody }
      | some _ =>
        { outcome := ToolCallOutcome.pyError PyErr.typeError,
          state := st1, forwarded := some rawBody }
      | none =>
        { outcome := ToolCallOutcome.pyError PyErr.jsonError,
          state := st1, forwarded := some rawBody }
    else
      { outcome := ToolCallOutcome.pyError PyErr.nameError,
        state := st1, forwarded := some rawBody }
  else
    { outcome := ToolCallOutcome.success resp.body resp.status,
      state := { st1 with
        tool_usage_counts :=
          aset st1.tool_usage_counts tool_name
            (usageOf st1.tool_usage_counts tool_name + 1) },
      forwarded := some rawBody }

/-- `handle_tool_call`, lines 298–439 of the source, as a pure function.
`now` stands for `time.time()` during this request, `upstream` for the
httpx round trip (response as a function of the forwarded body), and
`isInjection` for `sanitizer_instance.check(...)['is_injection']`.

One deliberate source behavior is carried over verbatim: the sanitized
arguments are computed and bound to the local `tool_args`, but the body
handed to `forward_and_filter` is the raw inbound `request.body()` — the
`_sanitized_args` binding below is as dead as its Python counterpart. -/
def handle_tool_call (st : ProxyState) (hasSession : Bool) (now : Int)
    (rawBody : List Char) (data : Json)
    (upstream : List Char → UpstreamResp) (isInjection : List Char → Bool) :
    ToolCallResult :=
  match extract_call data with
  | Except.error e => { outcome := ToolCallOutcome.pyError e, state := st, forwarded := none }
  | Except.ok (tool_name, tool_args) =>
    if hasSession = false then
      { outcome := ToolCallOutcome.notConnected, state := st, forwarded := none }
    else if is_tool_allowed st.config tool_name = false then
      { outcome := ToolCallOutcome.forbidden, state := st, forwarded := none }
    else
      let pr := check_rate_limit now (getRateLimit st.rate_limits tool_name now)
      let st1 : ProxyState :=
        { st with rate_limits := aset st.rate_limits tool_name pr.2 }
      if pr.1 = false then
        { outcome := ToolCallOutcome.rateLimited, state := st1, forwarded := none }
      else if st1.config.input_sanitization_enabled then
        match tool_args with
        | Json.obj fs =>
          let _sanitized_args := Json.obj (sanitizeFields st1.config.dangerous_patterns fs)
          forward_and_filter st1 tool_name rawBody upstream isInjection
        | _ =>
          -- `.items()` on a non-dict raises `AttributeError`
          { outcome := ToolCallOutcome.pyError PyErr.attributeError,
            state := st1, forwarded := none }
      else forward_and_filter st1 tool_name rawBody upstream isInjection

/-- Evaluation of `tool['name'] not in blocked_tools` for one entry of
`result.tools`: a non-dict entry raises `TypeError` on indexing, a dict
without `name` raises `KeyError`, a non-string name is never a member of
the (string) blocked set and is kept. -/
def keepTool (blocked : List String) (t : Json) : Except PyErr Bool :=
  match t with
  | Json.obj fs =>
    match alookup fs "name" with
    | some (Json.str s) => Except.ok (decide (s ∉ blocked))
    | some _ => Except.ok true
    | none => Except.error PyErr.keyError
  | _ => Except.error PyErr.typeError

/-- The list comprehension of `updated_handle_tools_list`: keep the tools
whose name is not blocked, propagating the first per-entry exception. -/
def filterToolsE (blocked : List String) : List Json → Except PyErr (List Json)
  | [] => Except.ok []
  | t :: ts =>
    match keepTool blocked t with
    | Except.error e => Except.error e
    | Except.ok b =>
      match filterToolsE blocked ts with
      | Except.error e => Except.error e
      | Except.ok r => Except.ok (if b then t :: r else r)

/-- The decode → filter → encode pipeline of `updated_handle_tools_list`
applied to the upstream response body.  A body with no `data: ` line
(`StopIteration`) and a JSON parse failure both surface as `jsonError`
(each escapes to the same HTTP 500); a `result` that is not a dict, or a
`tools` that is not a list, raises on indexing or iteration. -/
def tools_list_transform (cfg : SecurityConfig) (upBody : List Char) :
    Except PyErr (List Char) :=
  match decodeFrame upBody with
  | none => Except.error PyErr.jsonError
  | some data =>
    match data with
    | Json.obj fields =>
      match alookup fields "result" with
      | some (Json.obj rs) =>
        match alookup rs "tools" with
        | some (Json.arr tools) =>
          match filterToolsE cfg.blocked_tools tools with
          | Except.error e => Except.error e
          | Except.ok kept =>
            Except.ok (encodeFrame
              (Json.obj (aset fields "result" (Json.obj (aset rs "tools" (Json.arr kept))))))
        | some _ => Except.error PyErr.typeError
        | none => Except.error PyErr.keyError
      | some _ => Except.error PyErr.typeError
      | none => Except.error PyErr.keyError
    | _ => Except.error PyErr.typeError

/-- Where `parse_and_direct_mcp_request` routes a request. -/
inductive Route where
  | initializeMethod
  | toolsList
  | toolCall
  | generic
deriving DecidableEq

/-- `parse_and_direct_mcp_request` on the parsed body: `body.get("method")`
requires a dict (`AttributeError` otherwise, an HTTP 500); the method
value is then compared against the three special strings, everything
else — a missing or non-string method included — going to the generic
passthrough. -/
def parse_and_direct (body : Json) : Except PyErr Route :=
  match body with
  | Json.obj fields =>
    match alookup fields "method" with
    | some (Json.str m) =>
      if m = "initialize" then Except.ok Route.initializeMethod
      else if m = "tools/list" then Except.ok Route.toolsList
      else if m = "tools/call" then Except.ok Route.toolCall
      else Except.ok Route.generic
    | _ => Except.ok Route.generic
  | _ => Except.error PyErr.attributeError

/-- Result of the generic passthrough `handle_mcp_request`. -/
structure GenericResult where
  forwarded : List Char
  body : List Char
  status : Nat

/-- `handle_mcp_request`: forward the inbound body byte-for-byte and
return the upstream body unchanged. -/
def handle_mcp_request (rawBody : List Char) (upstream : List Char → UpstreamResp) :
    GenericResult :=
  let resp := upstream rawBody
  { forwarded := rawBody, body := resp.body, status := resp.status }

/-- Spec-side classification table for claim C8, written from the spec's
words: route on the top-level `method` value only — `initialize`,
`tools/list` and `tools/call` to their handlers, anything else (a missing
or non-string method included) to the generic passthrough.  The code-side
`parse_and_direct` is compared against this table. -/
def specRoute : Option Json → Route
  | some (Json.str "initialize") => Route.initializeMethod
  | some (Json.str "tools/list") => Route.toolsList
  | some (Json.str "tools/call") => Route.toolCall
  | _ => Route.generic

/-! ## Shared lemmas -/

theorem alookup_aset_self {α : Type} (m : List (String × α)) (k : String) (v : α) :
    alookup (aset m k v) k = some v := by
  induction m with
  | nil => simp [aset, alookup]
  | cons hd t ih =>
    obtain ⟨k', w⟩ := hd
    by_cases h : k' = k
    · simp [aset, h, alookup]
    · simp [aset, h, alookup, ih]

theorem is_tool_allowed_false_iff (cfg : SecurityConfig) (t : String) :
    is_tool_allowed cfg t = false ↔
      t ∈ cfg.blocked_tools ∨ (cfg.allowed_tools ≠ [] ∧ t ∉ cfg.allowed_tools) := by
  by_cases hb : t ∈ cfg.blocked_tools
  · simp [is_tool_allowed, hb]
  · by_cases ha : cfg.allowed_tools ≠ [] ∧ t ∉ cfg.allowed_tools
    · simp [is_tool_allowed, hb, ha]
    · simp [is_tool_allowed, hb, ha]

/-! ## C5: the allow/block decision -/

/-- Claim C5: for every tool name `t` and policy state, `is_tool_allowed`
is false exactly when `t` is blocked, or the allow-list is non-empty and
`t` is not on it; blocked membership wins, and an empty allow-list
permits every non-blocked tool. -/
theorem claim_C5 (cfg : SecurityConfig) (t : String) :
    is_tool_allowed cfg t = false ↔
      t ∈ cfg.blocked_tools ∨ (cfg.allowed_tools ≠ [] ∧ t ∉ cfg.allowed_tools) :=
  is_tool_allowed_false_iff cfg t

/-! ## C10: the first enable switches to allow-list mode -/

/-- Claim C10, counterexample to "from then on": enabling `A` on a fresh
configuration does reject the never-enabled `B`, but disabling `A` again
empties the allow-list and `B` is accepted once more — so the switch to
allow-list mode is not permanent. -/
theorem claim_C10_counterexample :
    is_tool_allowed (toggle_tool initialConfig "A" true) "B" = false
    ∧ is_tool_allowed (toggle_tool (toggle_tool initialConfig "A" true) "A" false) "B" = true := by
  constructor <;> rfl

/-- Claim C10, amended: enabling any tool adds it to the allow-list,
making the list non-empty, and while the tool-call gate sees a non-empty
allow-list every name outside it — blocked or not — is rejected.  The
mode is not permanent: it lasts only while the allow-list stays
non-empty (see the counterexample). -/
theorem claim_C10 (cfg : SecurityConfig) (t u : String)
    (h : u ∉ (toggle_tool cfg t true).allowed_tools) :
    (toggle_tool cfg t true).allowed_tools ≠ []
    ∧ is_tool_allowed (toggle_tool cfg t true) u = false := by
  have hmem' : t ∈ (toggle_tool cfg t true).allowed_tools := by
    by_cases hmem : t ∈ cfg.allowed_tools <;> simp [toggle_tool, hmem]
  have hne : (toggle_tool cfg t true).allowed_tools ≠ [] :=
    List.ne_nil_of_mem hmem'
  refine ⟨hne, ?_⟩
  rw [is_tool_allowed_false_iff]
  exact Or.inr ⟨hne, h⟩

/-- Witness for C10 at a concrete instance: enable `A` on the fresh
configuration, then `B` is outside the allow-list and rejected. -/
theorem claim_C10_witness :
    (toggle_tool initialConfig "A" true).allowed_tools ≠ []
    ∧ is_tool_allowed (toggle_tool initialConfig "A" true) "B" = false :=
  claim_C10 initialConfig "A" "B" (by decide)

/-! ## C4: the rate-limit window -/

theorem checkN_runs (n : Nat) : ∀ (now : Int) (w : RateLimit),
    now - w.last_reset < 60 → w.call_count + n ≤ w.calls_per_minute →
    checkN n now w = (List.replicate n true, { w with call_count := w.call_count + n }) := by
  induction n with
  | zero => intro now w _ _; simp [checkN]
  | succ n ih =>
    intro now w h1 h2
    have hres : ¬ now - w.last_reset ≥ 60 := by omega
    have hcap : ¬ w.call_count ≥ w.calls_per_minute := by omega
    have hchk : check_rate_limit now w = (true, { w with call_count := w.call_count + 1 }) := by
      simp [check_rate_limit, hres, hcap]
    have hih := ih now { w with call_count := w.call_count + 1 } (by simpa using h1)
      (by simp; omega)
    have harith : w.call_count + 1 + n = w.call_count + (n + 1) := by omega
    simp only [checkN, hchk, hih, harith, List.replicate_succ]

theorem checkN_add (a b : Nat) (now : Int) : ∀ w : RateLimit,
    checkN (a + b) now w =
      ((checkN a now w).1 ++ (checkN b now (checkN a now w).2).1,
        (checkN b now (checkN a now w).2).2) := by
  induction a with
  | zero => intro w; simp [checkN]
  | succ a ih =>
    intro w
    have hre : a + 1 + b = (a + b) + 1 := by omega
    rw [hre]
    simp only [checkN, ih, List.cons_append]

/-- Claim C4: with cap `C`, a zeroed counter and a fresh window, `C` checks
at one instant all pass and the next fails; a check at least 60 seconds
after the window start lazily resets the window (counter to 0, start to
now) and passes, leaving counter 1; and every passing check has already
counted the call in the same step — there is no separate increment. -/
theorem claim_C4 (C : Nat) (w w2 : RateLimit) (now now2 now3 : Int)
    (hcap : w.calls_per_minute = C) (hcount : w.call_count = 0)
    (hfresh : now - w.last_reset < 60) :
    (checkN (C + 1) now w).1 = List.replicate C true ++ [false]
    ∧ (0 < C → now2 - w.last_reset ≥ 60 →
        check_rate_limit now2 w = (true, ⟨C, now2, 1⟩))
    ∧ ((check_rate_limit now3 w2).1 = true →
        (check_rate_limit now3 w2).2.call_count
          = (if now3 - w2.last_reset ≥ 60 then 0 else w2.call_count) + 1) := by
  refine ⟨?_, ?_, ?_⟩
  · have hrun := checkN_runs C now w hfresh (by omega)
    have hsplit := checkN_add C 1 now w
    have hfail : check_rate_limit now { w with call_count := w.call_count + C } =
        (false, { w with call_count := w.call_count + C }) := by
      have h1 : ¬ now - w.last_reset ≥ 60 := by omega
      have h2 : w.call_count + C ≥ w.calls_per_minute := by omega
      simp [check_rate_limit, h1, h2]
    rw [hsplit, hrun]
    simp [checkN, hfail]
  · intro hC hlate
    have h2 : ¬ (0 ≥ w.calls_per_minute) := by omega
    simp [check_rate_limit, hlate, h2, hcap]
    omega
  · intro hok
    by_cases hlate : now3 - w2.last_reset ≥ 60
    · by_cases hover : (0 : Nat) ≥ w2.calls_per_minute
      · simp [check_rate_limit, hlate, hover] at hok
      · simp [check_rate_limit, hlate, hover]
    · by_cases hover : w2.call_count ≥ w2.calls_per_minute
      · simp [check_rate_limit, hlate, hover] at hok
      · simp [check_rate_limit, hlate, hover]

/-- Witness for C4: cap 3, four rapid checks at `now = 0` give three
passes then a failure; a check at `now = 100` resets and passes; and a
passing mid-window check increments in the same step. -/
theorem claim_C4_witness :
    (checkN (3 + 1) 0 ⟨3, 0, 0⟩).1 = List.replicate 3 true ++ [false]
    ∧ (0 < 3 → (100 : Int) - (⟨3, 0, 0⟩ : RateLimit).last_reset ≥ 60 →
        check_rate_limit 100 ⟨3, 0, 0⟩ = (true, ⟨3, 100, 1⟩))
    ∧ ((check_rate_limit 7 ⟨60, 0, 5⟩).1 = true →
        (check_rate_limit 7 ⟨60, 0, 5⟩).2.call_count
          = (if (7 : Int) - (⟨60, 0, 5⟩ : RateLimit).last_reset ≥ 60 then 0
             else (⟨60, 0, 5⟩ : RateLimit).call_count) + 1) :=
  claim_C4 3 ⟨3, 0, 0⟩ ⟨60, 0, 5⟩ 0 100 7 rfl rfl (by decide)

/-! ## C8: request dispatch -/

theorem parse_matches_specRoute (fields : List (String × Json)) :
    parse_and_direct (Json.obj fields) = Except.ok (specRoute (alookup fields "method")) := by
  simp only [parse_and_direct]
  cases halm : alookup fields "method" with
  | none => rfl
  | some v =>
    cases v with
    | str m =>
      by_cases h1 : m = "initialize"
      · subst h1; rfl
      · by_cases h2 : m = "tools/list"
        · subst h2; rfl
        · by_cases h3 : m = "tools/call"
          · subst h3; rfl
          · simp only [if_neg h1, if_neg h2, if_neg h3]
            unfold specRoute
            split <;> simp_all
    | null => rfl
    | bool b => rfl
    | num n => rfl
    | arr es => rfl
    | obj fs => rfl

/-- Claim C8, counterexample: a body that is valid JSON but not an object
(`42`) is a non-conforming body, yet instead of falling through to generic
passthrough the dispatcher's `body.get("method")` raises `AttributeError`
(an HTTP 500). -/
theorem claim_C8_counterexample :
    parse_and_direct (Json.num 42) = Except.error PyErr.attributeError
    ∧ parse_and_direct (Json.num 42) ≠ Except.ok Route.generic := by
  constructor
  · rfl
  · intro h
    have hcontra : (Except.error PyErr.attributeError : Except PyErr Route)
        = Except.ok Route.generic := Eq.trans (by rfl) h
    exact Except.noConfusion hcontra

/-- Claim C8, amended: a JSON-object body is classified by its top-level
`method` value only, following the spec's table (`initialize`,
`tools/list`, `tools/call`, everything else — a missing or non-string
method included — generic); two object bodies with the same `method`
lookup route identically; the generic passthrough forwards the raw body
unmodified; but a body that is not a JSON object raises `AttributeError`
(HTTP 500) instead of passing through. -/
theorem claim_C8 (fields fields2 : List (String × Json)) (b : Json) (rb : List Char)
    (up : List Char → UpstreamResp)
    (hnonobj : ∀ fs, b ≠ Json.obj fs) :
    parse_and_direct (Json.obj fields) = Except.ok (specRoute (alookup fields "method"))
    ∧ (alookup fields2 "method" = alookup fields "method" →
        parse_and_direct (Json.obj fields2) = parse_and_direct (Json.obj fields))
    ∧ parse_and_direct b = Except.error PyErr.attributeError
    ∧ (handle_mcp_request rb up).forwarded = rb := by
  refine ⟨parse_matches_specRoute fields, ?_, ?_, rfl⟩
  · intro h
    rw [parse_matches_specRoute fields2, parse_matches_specRoute fields, h]
  · cases b with
    | obj fs => exact absurd rfl (hnonobj fs)
    | null => rfl
    | bool v => rfl
    | num n => rfl
    | str s => rfl
    | arr es => rfl

/-- Witness for C8 at concrete inputs: a `tools/call` body routes to the
gated path, a second body with the same method routes identically, and a
JSON-array body raises. -/
theorem claim_C8_witness :
    parse_and_direct (Json.obj [("method", Json.str "tools/call")])
      = Except.ok (specRoute (alookup [("method", Json.str "tools/call")] "method"))
    ∧ (alookup [("method", Json.str "tools/call"), ("id", Json.num 1)] "method"
        = alookup [("method", Json.str "tools/call")] "method" →
        parse_and_direct (Json.obj [("method", Json.str "tools/call"), ("id", Json.num 1)])
          = parse_and_direct (Json.obj [("method", Json.str "tools/call")]))
    ∧ parse_and_direct (Json.arr []) = Except.error PyErr.attributeError
    ∧ (handle_mcp_request "x".data (fun bs => ⟨bs, 200⟩)).forwarded = "x".data :=
  claim_C8 [("method", Json.str "tools/call")]
    [("method", Json.str "tools/call"), ("id", Json.num 1)]
    (Json.arr []) "x".data (fun bs => ⟨bs, 200⟩) (fun _ h => Json.noConfusion h)

/-! ## C6: early termination and usage counters -/

theorem usageOf_aset_self (m : List (String × Nat)) (k : String) (v : Nat) :
    usageOf (aset m k v) k = v := by
  simp [usageOf, alookup_aset_self]

theorem forward_and_filter_forwarded (st1 : ProxyState) (tn : String) (rb : List Char)
    (up : List Char → UpstreamResp) (inj : List Char → Bool) :
    (forward_and_filter st1 tn rb up inj).forwarded = some rb := by
  unfold forward_and_filter
  dsimp only
  repeat' split
  all_goals rfl

theorem forward_and_filter_usage (st1 : ProxyState) (tn : String) (rb : List Char)
    (up : List Char → UpstreamResp) (inj : List Char → Bool) :
    usageOf (forward_and_filter st1 tn rb up inj).state.tool_usage_counts tn
      = usageOf st1.tool_usage_counts tn
        + (if (forward_and_filter st1 tn rb up inj).outcome.isSuccess then 1 else 0) := by
  unfold forward_and_filter
  dsimp only
  repeat' split
  all_goals simp_all [usageOf_aset_self, ToolCallOutcome.isSuccess]

/-- Claim C6: with a live session, a `tools/call` naming a disallowed tool
returns `forbidden` with nothing forwarded upstream and the state
untouched; a rate-limited call returns `rateLimited` with nothing
forwarded and the usage counters untouched; and the tool's usage counter
grows by one exactly when the outcome is a clean (non-filtered)
forwarding — blocked, rate-limited and injection-filtered calls leave it
unchanged. -/
theorem claim_C6 (st : ProxyState) (now : Int) (rawBody : List Char) (data : Json)
    (up : List Char → UpstreamResp) (inj : List Char → Bool)
    (n : String) (args : Json) (r : ToolCallResult)
    (hex : extract_call data = Except.ok (n, args))
    (hr : r = handle_tool_call st true now rawBody data up inj) :
    (is_tool_allowed st.config n = false →
        r.outcome = ToolCallOutcome.forbidden ∧ r.forwarded = none ∧ r.state = st)
    ∧ (is_tool_allowed st.config n = true →
        (check_rate_limit now (getRateLimit st.rate_limits n now)).1 = false →
        r.outcome = ToolCallOutcome.rateLimited ∧ r.forwarded = none
          ∧ r.state.tool_usage_counts = st.tool_usage_counts)
    ∧ usageOf r.state.tool_usage_counts n
        = usageOf st.tool_usage_counts n + (if r.outcome.isSuccess then 1 else 0) := by
  subst hr
  refine ⟨?_, ?_, ?_⟩
  · intro hallow
    simp [handle_tool_call, hex, hallow, ToolCallOutcome.isSuccess]
  · intro hallow hrate
    simp [handle_tool_call, hex, hallow, hrate, ToolCallOutcome.isSuccess]
  · simp only [handle_tool_call, hex]
    repeat' split
    all_goals
      simp_all [usageOf_aset_self, forward_and_filter_usage, ToolCallOutcome.isSuccess]

/-- Witness for C6 at a concrete blocked call: tool `t` is blocked, so the
outcome is `forbidden`. -/
theorem claim_C6_witness :
    (handle_tool_call ⟨⟨["t"], [], true, dangerousPatterns⟩, [], []⟩ true 0 "B".data
        (Json.obj [("params", Json.obj [("name", Json.str "t")])])
        (fun bs => ⟨bs, 200⟩) (fun _ => false)).outcome = ToolCallOutcome.forbidden :=
  ((claim_C6 ⟨⟨["t"], [], true, dangerousPatterns⟩, [], []⟩ 0 "B".data
      (Json.obj [("params", Json.obj [("name", Json.str "t")])])
      (fun bs => ⟨bs, 200⟩) (fun _ => false) "t" (Json.obj [])
      (handle_tool_call ⟨⟨["t"], [], true, dangerousPatterns⟩, [], []⟩ true 0 "B".data
        (Json.obj [("params", Json.obj [("name", Json.str "t")])])
        (fun bs => ⟨bs, 200⟩) (fun _ => false))
      rfl rfl).1 (by decide)).1

/-! ## C1: the sanitized arguments are never what is forwarded -/

/-- Claim C1 is a code bug: `handle_tool_call` computes `sanitized_args`,
logs, rebinds the local `tool_args` — and then forwards `await
request.body()`, the untouched inbound bytes.  First conjunct: whatever
is forwarded upstream is always exactly the raw inbound body.  The
remaining conjuncts evaluate the failing input: a call whose `cmd`
argument matches the `os\.system` denylist pattern is forwarded as the
raw body even though sanitization (had it been applied to the forwarded
payload) rewrites the argument to `[BLOCKED]('rm -rf /')`. -/
theorem claim_C1 :
    (∀ (st : ProxyState) (hs : Bool) (now : Int) (rb : List Char) (data : Json)
        (up : List Char → UpstreamResp) (inj : List Char → Bool),
        (handle_tool_call st hs now rb data up inj).forwarded = none
        ∨ (handle_tool_call st hs now rb data up inj).forwarded = some rb)
    ∧ (handle_tool_call ⟨initialConfig, [], []⟩ true 0 "RAW os.system BODY".data
        (Json.obj [("params", Json.obj [("name", Json.str "sh"),
          ("arguments", Json.obj [("cmd", Json.str "os.system('rm -rf /')")])])])
        (fun bs => ⟨bs, 200⟩) (fun _ => false)).forwarded = some "RAW os.system BODY".data
    ∧ sanitizeFields dangerousPatterns [("cmd", Json.str "os.system('rm -rf /')")]
        = [("cmd", Json.str "[BLOCKED]('rm -rf /')")]
    ∧ sanitizeFields dangerousPatterns [("cmd", Json.str "os.system('rm -rf /')")]
        ≠ [("cmd", Json.str "os.system('rm -rf /')")] := by
  have hval : sanitizeFields dangerousPatterns [("cmd", Json.str "os.system('rm -rf /')")]
      = [("cmd", Json.str "[BLOCKED]('rm -rf /')")] := rfl
  refine ⟨?_, rfl, hval, ?_⟩
  · intro st hs now rb data up inj
    unfold handle_tool_call
    dsimp only
    repeat' split
    all_goals simp [forward_and_filter_forwarded]
  · rw [hval]
    intro h
    have h2 := congrArg (fun l => alookup l "cmd") h
    simp only [alookup, if_pos rfl] at h2
    injection h2 with h3
    injection h3 with h4
    exact absurd h4 (by decide)

/-! ## C3: the injection filter's unrecognized-format branch -/

/-- Claim C3 is a code bug.  First conjunct, the failing input: with the
Detector flagging the response and an upstream body that does not start
with `event: message\r\ndata: `, the handler's fallback `return` reads
the never-assigned local `response_data` and raises `UnboundLocalError`
— an HTTP 500 internal error, not the promised safe payload.  Second
conjunct: when the body does match the expected prefix, the handler does
return the safe error-flagged payload carrying the original id. -/
theorem claim_C3 :
    (handle_tool_call ⟨initialConfig, [], []⟩ true 0 "x".data
        (Json.obj [("params", Json.obj [("name", Json.str "t")])])
        (fun _ => ⟨"hello".data, 200⟩) (fun _ => true)).outcome
      = ToolCallOutcome.pyError PyErr.nameError
    ∧ (handle_tool_call ⟨initialConfig, [], []⟩ true 0 "x".data
        (Json.obj [("params", Json.obj [("name", Json.str "t")])])
        (fun _ => ⟨"event: message\r\ndata: ".data ++ jdump (Json.obj [("id", Json.num 5)]), 200⟩)
        (fun _ => true)).outcome
      = ToolCallOutcome.injectionBlocked (injectionPayload (Json.num 5)) := by
  constructor <;> rfl

/-! ## C2: what the sanitizer visits -/

/-- Claim C2, counterexample: the string `"subprocess"` sitting directly
inside an array is returned untouched by `sanitize_input`, although the
`subprocess` pattern rewrites that very string to `[BLOCKED]` when it is
a dict value — so sanitization does not visit string leaves inside
arrays, contradicting the claimed output. -/
theorem claim_C2_counterexample :
    sanitizeFields dangerousPatterns [("args", Json.arr [Json.str "subprocess"])]
      = [("args", Json.arr [Json.str "subprocess"])]
    ∧ sanitizeString dangerousPatterns "subprocess" = "[BLOCKED]"
    ∧ sanitizeFields dangerousPatterns [("args", Json.arr [Json.str "subprocess"])]
      ≠ [("args", Json.arr [Json.str "[BLOCKED]"])] := by
  refine ⟨rfl, rfl, ?_⟩
  intro h
  have h2 : some (Json.arr [Json.str "subprocess"]) = some (Json.arr [Json.str "[BLOCKED]"]) :=
    congrArg (fun l => alookup l "args") h
  injection h2 with h3
  injection h3 with h4
  injection h4 with h5 h6
  injection h5 with h7
  exact absurd h7 (by decide)

/-- Claim C2, amended: sanitization rewrites every string reachable
through dict values — through nested dicts and through dicts that are
array items — replacing each case-insensitive denylist match with
`[BLOCKED]`, and returns non-string leaves unchanged; but a string that
is a direct array item, and likewise an array nested inside an array,
passes through untouched (only dict items of arrays recurse).  The two
concrete conjuncts instantiate the spec's `os.system` example and the
dict-inside-array recursion. -/
theorem claim_C2 (pats : List (List PTok)) (s : String) (n : Int) (b : Bool)
    (xs rest : List Json) (fs : List (String × Json))
    (ent : List (String × Json)) (k : String) (v : Json) :
    sanitizeFields dangerousPatterns [("cmd", Json.str "os.system('rm -rf /')")]
      = [("cmd", Json.str "[BLOCKED]('rm -rf /')")]
    ∧ sanitizeFields dangerousPatterns
        [("xs", Json.arr [Json.obj [("c", Json.str "subprocess")]])]
      = [("xs", Json.arr [Json.obj [("c", Json.str "[BLOCKED]")]])]
    ∧ sanitizeItems pats (Json.str s :: rest) = Json.str s :: sanitizeItems pats rest
    ∧ sanitizeItems pats (Json.arr xs :: rest) = Json.arr xs :: sanitizeItems pats rest
    ∧ sanitizeItems pats (Json.obj fs :: rest)
        = Json.obj (sanitizeFields pats fs) :: sanitizeItems pats rest
    ∧ sanitizeValue pats (Json.num n) = Json.num n
    ∧ sanitizeValue pats (Json.bool b) = Json.bool b
    ∧ sanitizeValue pats Json.null = Json.null
    ∧ sanitizeValue pats (Json.str s) = Json.str (sanitizeString pats s)
    ∧ sanitizeFields pats ((k, v) :: ent) = (k, sanitizeValue pats v) :: sanitizeFields pats ent :=
  ⟨rfl, rfl, rfl, rfl, rfl, rfl, rfl, rfl, rfl, rfl⟩

/-! ## C7: tools/list filtering -/

theorem filterToolsE_mem (bl : List String) : ∀ (ts kept : List Json),
    filterToolsE bl ts = Except.ok kept →
    ∀ x, x ∈ kept ↔ x ∈ ts ∧ keepTool bl x = Except.ok true := by
  intro ts
  induction ts with
  | nil =>
    intro kept h x
    simp only [filterToolsE] at h
    injection h with h'
    subst h'
    simp
  | cons t ts ih =>
    intro kept h x
    cases hk : keepTool bl t with
    | error e => simp [filterToolsE, hk] at h
    | ok b =>
      cases hr : filterToolsE bl ts with
      | error e => simp [filterToolsE, hk, hr] at h
      | ok r =>
        have hkept : kept = if b then t :: r else r := by
          simp only [filterToolsE, hk, hr] at h
          injection h with h'
          exact h'.symm
        subst hkept
        cases b with
        | true =>
          simp only [if_pos rfl]
          constructor
          · intro hx
            rcases List.mem_cons.mp hx with rfl | hx'
            · exact ⟨List.mem_cons_self _ _, hk⟩
            · obtain ⟨hmem, hkeep⟩ := (ih r hr x).mp hx'
              exact ⟨List.mem_cons_of_mem _ hmem, hkeep⟩
          · rintro ⟨hmem, hkeep⟩
            rcases List.mem_cons.mp hmem with rfl | hmem'
            · exact List.mem_cons_self _ _
            · exact List.mem_cons_of_mem _ ((ih r hr x).mpr ⟨hmem', hkeep⟩)
        | false =>
          simp only [if_neg (by decide : ¬ (false = true))]
          constructor
          · intro hx
            obtain ⟨hmem, hkeep⟩ := (ih r hr x).mp hx
            exact ⟨List.mem_cons_of_mem _ hmem, hkeep⟩
          · rintro ⟨hmem, hkeep⟩
            rcases List.mem_cons.mp hmem with rfl | hmem'
            · rw [hk] at hkeep
              injection hkeep with hb
              exact absurd hb (by decide)
            · exact (ih r hr x).mpr ⟨hmem', hkeep⟩

/-- Claim C7: when the `tools/list` pipeline succeeds, the response frame
carries exactly the upstream tools whose keep test passes — a tool is
kept iff it was upstream and its name is not blocked — and the result
depends only on the blocked set: any configuration with the same blocked
set (whatever its allow-list) produces the identical response. -/
theorem claim_C7 (cfg cfg2 : SecurityConfig) (upBody : List Char)
    (fields rs : List (String × Json)) (tools kept : List Json) (t : Json)
    (hdec : decodeFrame upBody = some (Json.obj fields))
    (hres : alookup fields "result" = some (Json.obj rs))
    (htools : alookup rs "tools" = some (Json.arr tools))
    (hkept : filterToolsE cfg.blocked_tools tools = Except.ok kept)
    (hsame : cfg2.blocked_tools = cfg.blocked_tools) :
    tools_list_transform cfg upBody
      = Except.ok (encodeFrame
          (Json.obj (aset fields "result" (Json.obj (aset rs "tools" (Json.arr kept))))))
    ∧ tools_list_transform cfg2 upBody = tools_list_transform cfg upBody
    ∧ (t ∈ kept ↔ t ∈ tools ∧ keepTool cfg.blocked_tools t = Except.ok true) := by
  have h1 : tools_list_transform cfg upBody
      = Except.ok (encodeFrame
          (Json.obj (aset fields "result" (Json.obj (aset rs "tools" (Json.arr kept)))))) := by
    simp [tools_list_transform, hdec, hres, htools, hkept]
  refine ⟨h1, ?_, filterToolsE_mem _ _ _ hkept t⟩
  rw [h1]
  simp [tools_list_transform, hdec, hres, htools, hsame, hkept]

/-- Witness for C7: upstream tools `A`, `B`, `C` with `B` blocked yield
`A`, `C`; a second configuration with the same blocked set but a
different allow-list produces the identical response; and the blocked
tool `B` is exactly the one failing the keep test. -/
theorem claim_C7_witness :
    tools_list_transform ⟨["B"], [], true, dangerousPatterns⟩
        (encodeFrame (Json.obj [("jsonrpc", Json.str "2.0"), ("id", Json.num 1),
          ("result", Json.obj [("tools", Json.arr [Json.obj [("name", Json.str "A")],
            Json.obj [("name", Json.str "B")], Json.obj [("name", Json.str "C")]])])]))
      = Except.ok (encodeFrame
          (Json.obj (aset [("jsonrpc", Json.str "2.0"), ("id", Json.num 1),
            ("result", Json.obj [("tools", Json.arr [Json.obj [("name", Json.str "A")],
              Json.obj [("name", Json.str "B")], Json.obj [("name", Json.str "C")]])])]
            "result"
            (Json.obj (aset [("tools", Json.arr [Json.obj [("name", Json.str "A")],
              Json.obj [("name", Json.str "B")], Json.obj [("name", Json.str "C")]])]
              "tools"
              (Json.arr [Json.obj [("name", Json.str "A")], Json.obj [("name", Json.str "C")]]))))))
    ∧ tools_list_transform ⟨["B"], ["A", "C"], false, []⟩
        (encodeFrame (Json.obj [("jsonrpc", Json.str "2.0"), ("id", Json.num 1),
          ("result", Json.obj [("tools", Json.arr [Json.obj [("name", Json.str "A")],
            Json.obj [("name", Json.str "B")], Json.obj [("name", Json.str "C")]])])]))
      = tools_list_transform ⟨["B"], [], true, dangerousPatterns⟩
          (encodeFrame (Json.obj [("jsonrpc", Json.str "2.0"), ("id", Json.num 1),
            ("result", Json.obj [("tools", Json.arr [Json.obj [("name", Json.str "A")],
              Json.obj [("name", Json.str "B")], Json.obj [("name", Json.str "C")]])])]))
    ∧ (Json.obj [("name", Json.str "B")]
          ∈ [Json.obj [("name", Json.str "A")], Json.obj [("name", Json.str "C")]]
        ↔ Json.obj [("name", Json.str "B")]
            ∈ [Json.obj [("name", Json.str "A")], Json.obj [("name", Json.str "B")],
               Json.obj [("name", Json.str "C")]]
          ∧ keepTool ["B"] (Json.obj [("name", Json.str "B")]) = Except.ok true) :=
  claim_C7 ⟨["B"], [], true, dangerousPatterns⟩ ⟨["B"], ["A", "C"], false, []⟩
    (encodeFrame (Json.obj [("jsonrpc", Json.str "2.0"), ("id", Json.num 1),
      ("result", Json.obj [("tools", Json.arr [Json.obj [("name", Json.str "A")],
        Json.obj [("name", Json.str "B")], Json.obj [("name", Json.str "C")]])])]))
    [("jsonrpc", Json.str "2.0"), ("id", Json.num 1),
      ("result", Json.obj [("tools", Json.arr [Json.obj [("name", Json.str "A")],
        Json.obj [("name", Json.str "B")], Json.obj [("name", Json.str "C")]])])]
    [("tools", Json.arr [Json.obj [("name", Json.str "A")],
      Json.obj [("name", Json.str "B")], Json.obj [("name", Json.str "C")]])]
    [Json.obj [("name", Json.str "A")], Json.obj [("name", Json.str "B")],
      Json.obj [("name", Json.str "C")]]
    [Json.obj [("name", Json.str "A")], Json.obj [("name", Json.str "C")]]
    (Json.obj [("name", Json.str "B")])
    rfl rfl rfl rfl rfl

/-! ## C9: the envelope codec round-trip.  First, decimal numbers. -/

theorem digitChar_spec : ∀ k, k < 10 → (digitChar k).toNat = 48 + k ∧ isDigitCh (digitChar k) = true := by
  decide

theorem natCharsAux_irrel : ∀ f g n, n ≤ f → n ≤ g → natCharsAux f n = natCharsAux g n := by
  intro f
  induction f with
  | zero =>
    intro g n hf _
    interval_cases n
    cases g with
    | zero => rfl
    | succ g => simp [natCharsAux]
  | succ f ih =>
    intro g n hf hg
    cases g with
    | zero =>
      interval_cases n
      simp [natCharsAux]
    | succ g =>
      by_cases h10 : n < 10
      · simp [natCharsAux, h10]
      · simp only [natCharsAux, if_neg h10]
        rw [ih g (n / 10) (by omega) (by omega)]

theorem natChars_unfold (n : Nat) :
    natChars n = if n < 10 then [digitChar n] else natChars (n / 10) ++ [digitChar (n % 10)] := by
  by_cases h10 : n < 10
  · simp only [natChars, if_pos h10]
    cases hn : n with
    | zero => simp [natCharsAux]
    | succ m => simp [natCharsAux, hn ▸ h10]
  · simp only [natChars, if_neg h10]
    have hn1 : ∃ m, n = m + 1 := ⟨n - 1, by omega⟩
    obtain ⟨m, rfl⟩ := hn1
    simp only [natCharsAux, if_neg h10]
    rw [natCharsAux_irrel m ((m + 1) / 10) ((m + 1) / 10) (by omega) (by omega)]

theorem natChars_digits (n : Nat) : ∀ c ∈ natChars n, isDigitCh c = true := by
  induction n using Nat.strong_induction_on with
  | _ n ih =>
    rw [natChars_unfold]
    by_cases h10 : n < 10
    · simp only [if_pos h10, List.mem_singleton]
      rintro c rfl
      exact (digitChar_spec n h10).2
    · simp only [if_neg h10, List.mem_append, List.mem_singleton]
      rintro c (hc | rfl)
      · exact ih (n / 10) (by omega) c hc
      · exact (digitChar_spec (n % 10) (by omega)).2

theorem natChars_cons (n : Nat) : ∃ c t, natChars n = c :: t ∧ isDigitCh c = true := by
  cases h : natChars n with
  | nil =>
    rw [natChars_unfold] at h
    by_cases h10 : n < 10 <;> simp [h10] at h
  | cons c t =>
    exact ⟨c, t, rfl, natChars_digits n c (h ▸ List.mem_cons_self c t)⟩

theorem natChars_last (n : Nat) : ∃ t k, k < 10 ∧ natChars n = t ++ [digitChar k] := by
  rw [natChars_unfold]
  by_cases h10 : n < 10
  · exact ⟨[], n, h10, by simp [h10]⟩
  · exact ⟨natChars (n / 10), n % 10, by omega, by simp [h10]⟩

theorem digitsVal_natChars (n : Nat) : digitsVal (natChars n) = n := by
  induction n using Nat.strong_induction_on with
  | _ n ih =>
    rw [natChars_unfold]
    by_cases h10 : n < 10
    · simp only [if_pos h10, digitsVal, List.foldl_cons, List.foldl_nil]
      rw [(digitChar_spec n h10).1]
      omega
    · simp only [if_neg h10, digitsVal, List.foldl_append, List.foldl_cons, List.foldl_nil]
      have hrec := ih (n / 10) (by omega)
      rw [digitsVal] at hrec
      rw [hrec, (digitChar_spec (n % 10) (by omega)).1]
      omega

theorem grabDigits_stop {l : List Char} (h : stopsNum l = true) : grabDigits l = ([], l) := by
  cases l with
  | nil => rfl
  | cons c t =>
    simp only [stopsNum, Bool.not_eq_eq_eq_not, Bool.not_true, Bool.or_eq_false_iff] at h
    simp [grabDigits, h.1.1.1]

theorem grabDigits_run : ∀ (ds rest : List Char), (∀ c ∈ ds, isDigitCh c = true) →
    grabDigits rest = ([], rest) → grabDigits (ds ++ rest) = (ds, rest) := by
  intro ds
  induction ds with
  | nil => intro rest _ hrest; simpa using hrest
  | cons c t ih =>
    intro rest hds hrest
    have hc : isDigitCh c = true := hds c (List.mem_cons_self c t)
    have ht := ih rest (fun x hx => hds x (List.mem_cons_of_mem c hx)) hrest
    simp [grabDigits, hc, ht]

theorem digit_facts {c : Char} (hc : isDigitCh c = true) :
    isJsonWs c = false ∧ isStripWs c = false ∧ c ≠ ']' ∧ c ≠ '\x7d' ∧ c ≠ '-' ∧ c ≠ '"'
    ∧ c ≠ '[' ∧ c ≠ '\x7b' ∧ c ≠ 'n' ∧ c ≠ 't' ∧ c ≠ 'f' ∧ c ≠ '.' ∧ c ≠ 'e' ∧ c ≠ 'E'
    ∧ c ≠ '\n' := by
  have hb : 48 ≤ c.toNat ∧ c.toNat ≤ 57 := by
    simpa [isDigitCh] using hc
  refine ⟨?_, ?_, ?_, ?_, ?_, ?_, ?_, ?_, ?_, ?_, ?_, ?_, ?_, ?_, ?_⟩
  · simp only [isJsonWs, Bool.or_eq_false_iff, decide_eq_false_iff_not]
    refine ⟨⟨⟨?_, ?_⟩, ?_⟩, ?_⟩ <;> (intro he; subst he; revert hb; decide)
  · simp only [isStripWs, Bool.or_eq_false_iff, decide_eq_false_iff_not]
    refine ⟨⟨⟨⟨⟨?_, ?_⟩, ?_⟩, ?_⟩, ?_⟩, ?_⟩ <;> (intro he; subst he; revert hb; decide)
  all_goals (intro he; subst he; revert hb; decide)

theorem stopsNum_head {c : Char} {t : List Char} (h : stopsNum (c :: t) = true) :
    isDigitCh c = false ∧ c ≠ '.' ∧ c ≠ 'e' ∧ c ≠ 'E' := by
  simp only [stopsNum, Bool.not_eq_eq_eq_not, Bool.not_true, Bool.or_eq_false_iff,
    decide_eq_false_iff_not] at h
  exact ⟨h.1.1.1, h.1.1.2, h.1.2, h.2⟩

theorem parseIntTok_intChars (i : Int) (rest : List Char) (hr : stopsNum rest = true) :
    parseIntTok (intChars i ++ rest) = some (i, rest) := by
  have hgrab0 : grabDigits rest = ([], rest) := grabDigits_stop hr
  cases i with
  | ofNat n =>
    obtain ⟨c, t, hct, hc⟩ := natChars_cons n
    have hfacts := digit_facts hc
    have hgr : grabDigits (natChars n ++ rest) = (natChars n, rest) :=
      grabDigits_run _ _ (natChars_digits n) hgrab0
    have hgr2 : grabDigits (c :: (t ++ rest)) = (c :: t, rest) := by
      rw [← List.cons_append, ← hct]; exact hgr
    have hval : digitsVal (c :: t) = n := by
      rw [← hct]; exact digitsVal_natChars n
    show parseIntTok (natChars n ++ rest) = some (Int.ofNat n, rest)
    rw [hct, List.cons_append]
    simp only [parseIntTok, if_neg hfacts.2.2.2.2.1, hgr2]
    simp [hr, hval]
  | negSucc m =>
    have hgr : grabDigits (natChars (m + 1) ++ rest) = (natChars (m + 1), rest) :=
      grabDigits_run _ _ (natChars_digits (m + 1)) hgrab0
    obtain ⟨c, t, hct, _⟩ := natChars_cons (m + 1)
    have hne : natChars (m + 1) ≠ [] := by rw [hct]; exact List.cons_ne_nil c t
    show parseIntTok ('-' :: (natChars (m + 1) ++ rest)) = some (Int.negSucc m, rest)
    simp only [parseIntTok, if_pos rfl, hgr]
    have hv : -((digitsVal (natChars (m + 1)) : Nat) : Int) = Int.negSucc m := by
      rw [digitsVal_natChars, Int.negSucc_eq]
      push_cast
      ring
    simp [hne, hr, hv]

/-! Hex groups and string escapes. -/

theorem hexDigitVal_hexChar : ∀ k, k < 16 → hexDigitVal (hexChar k) = some k := by
  decide

theorem hexQuad_chars (n : Nat) (h : n < 65536) :
    hexQuad (hexChar (n / 4096 % 16)) (hexChar (n / 256 % 16))
      (hexChar (n / 16 % 16)) (hexChar (n % 16)) = some n := by
  have h1 := hexDigitVal_hexChar (n / 4096 % 16) (by omega)
  have h2 := hexDigitVal_hexChar (n / 256 % 16) (by omega)
  have h3 := hexDigitVal_hexChar (n / 16 % 16) (by omega)
  have h4 := hexDigitVal_hexChar (n % 16) (by omega)
  simp only [hexQuad, h1, h2, h3, h4]
  congr 1
  omega

theorem char_nat_valid (c : Char) :
    c.toNat < 0xd800 ∨ (0xdfff < c.toNat ∧ c.toNat < 0x110000) :=
  c.valid

theorem parseJStrF_u_step (fuel : Nat) (h1 h2 h3 h4 : Char) (r2 : List Char) :
    parseJStrF (fuel + 1) ('\\' :: 'u' :: h1 :: h2 :: h3 :: h4 :: r2)
      = (match hexQuad h1 h2 h3 h4 with
         | none => none
         | some n =>
           if 0xd800 ≤ n ∧ n < 0xdc00 then
             (match r2 with
              | '\\' :: 'u' :: g1 :: g2 :: g3 :: g4 :: r3 =>
                match hexQuad g1 g2 g3 g4 with
                | some m =>
                  if 0xdc00 ≤ m ∧ m < 0xe000 then
                    (parseJStrF fuel r3).map fun pr =>
                      (Char.ofNat (0x10000 + (n - 0xd800) * 0x400 + (m - 0xdc00)) :: pr.1, pr.2)
                  else none
                | none => none
              | _ => none)
           else if 0xdc00 ≤ n ∧ n < 0xe000 then none
           else (parseJStrF fuel r2).map fun pr => (Char.ofNat n :: pr.1, pr.2)) := rfl

theorem parseJStrF_uEsc (fuel : Nat) (cn : Nat) (x : List Char)
    (hvalid : cn < 0xd800 ∨ (0xdfff < cn ∧ cn < 0x110000)) :
    parseJStrF (fuel + 1) (uEsc cn ++ x)
      = (parseJStrF fuel x).map fun pr => (Char.ofNat cn :: pr.1, pr.2) := by
  by_cases hbmp : cn < 0x10000
  · have hs1 : ¬ (0xd800 ≤ cn ∧ cn < 0xdc00) := by omega
    have hs2 : ¬ (0xdc00 ≤ cn ∧ cn < 0xe000) := by omega
    rw [uEsc, if_pos hbmp, hexQuadChars]
    simp only [List.cons_append, List.nil_append]
    rw [parseJStrF_u_step, hexQuad_chars cn hbmp]
    simp only [if_neg hs1, if_neg hs2]
  · have hhi : 0xd800 + (cn - 0x10000) / 0x400 < 65536 := by omega
    have hlo : 0xdc00 + (cn - 0x10000) % 0x400 < 65536 := by omega
    have hs1 : 0xd800 ≤ 0xd800 + (cn - 0x10000) / 0x400
        ∧ 0xd800 + (cn - 0x10000) / 0x400 < 0xdc00 := by omega
    have hs2 : 0xdc00 ≤ 0xdc00 + (cn - 0x10000) % 0x400
        ∧ 0xdc00 + (cn - 0x10000) % 0x400 < 0xe000 := by omega
    have hcomb : 0x10000 + (0xd800 + (cn - 0x10000) / 0x400 - 0xd800) * 0x400
        + (0xdc00 + (cn - 0x10000) % 0x400 - 0xdc00) = cn := by omega
    rw [uEsc, if_neg hbmp, hexQuadChars, hexQuadChars]
    simp only [List.cons_append, List.append_assoc, List.nil_append]
    rw [parseJStrF_u_step, hexQuad_chars _ hhi]
    simp only [if_pos hs1]
    rw [hexQuad_chars _ hlo]
    simp only [if_pos hs2, hcomb]

theorem escStepF (fuel : Nat) (c : Char) (x : List Char) :
    parseJStrF (fuel + 1) (escSeqChar c ++ x)
      = (parseJStrF fuel x).map fun pr => (c :: pr.1, pr.2) := by
  by_cases h1 : c = '"'
  · subst h1; rfl
  · by_cases h2 : c = '\\'
    · subst h2; rfl
    · by_cases h3 : c = '\n'
      · subst h3; rfl
      · by_cases h4 : c = '\r'
        · subst h4; rfl
        · by_cases h5 : c = '\t'
          · subst h5; rfl
          · by_cases h6 : c = '\x08'
            · subst h6; rfl
            · by_cases h7 : c = '\x0c'
              · subst h7; rfl
              · by_cases h8 : c.toNat < 0x20 ∨ 0x7e < c.toNat
                · rw [escSeqChar, if_neg h1, if_neg h2, if_neg h3, if_neg h4, if_neg h5,
                    if_neg h6, if_neg h7, if_pos h8,
                    parseJStrF_uEsc fuel c.toNat x (char_nat_valid c), Char.ofNat_toNat]
                · have h9 : ¬ c.toNat < 0x20 := by omega
                  rw [escSeqChar, if_neg h1, if_neg h2, if_neg h3, if_neg h4, if_neg h5,
                    if_neg h6, if_neg h7, if_neg h8]
                  show parseJStrF (fuel + 1) (c :: x) = _
                  rw [parseJStrF.eq_def]
                  simp only [if_neg h1, if_neg h2, if_neg h9]

theorem escSeqChar_pos (c : Char) : 1 ≤ (escSeqChar c).length := by
  unfold escSeqChar
  repeat' split
  all_goals first
    | simp
    | (unfold uEsc; split <;> simp)

theorem escSeq_length : ∀ s : List Char, s.length ≤ (escSeq s).length := by
  intro s
  induction s with
  | nil => simp [escSeq]
  | cons c t ih =>
    have hpos := escSeqChar_pos c
    simp only [escSeq, List.length_append, List.length_cons]
    omega

theorem parseJStrF_escSeq : ∀ (s : List Char) (fuel : Nat) (rest : List Char),
    s.length + 1 ≤ fuel → parseJStrF fuel (escSeq s ++ '"' :: rest) = some (s, rest) := by
  intro s
  induction s with
  | nil =>
    intro fuel rest hf
    cases fuel with
    | zero => omega
    | succ g => simp only [escSeq, List.nil_append]; rfl
  | cons c t ih =>
    intro fuel rest hf
    cases fuel with
    | zero => omega
    | succ g =>
      simp only [escSeq, List.append_assoc]
      rw [escStepF, ih g rest (by simp only [List.length_cons] at hf; omega)]
      rfl

theorem parseJStr_escSeq (s rest : List Char) :
    parseJStr (escSeq s ++ '"' :: rest) = some (s, rest) := by
  unfold parseJStr
  apply parseJStrF_escSeq
  have h := escSeq_length s
  simp only [List.length_append, List.length_cons]
  omega

/-! Character-range facts about rendered JSON: every character of
`jdump` is printable ASCII (in particular, no raw newline or carriage
return appears, which the envelope framing relies on). -/

theorem hexChar_ge : ∀ k, k < 16 → 32 ≤ (hexChar k).toNat := by
  intro k hk
  interval_cases k <;> decide

theorem uGroup_ge (m : Nat) (c : Char) (hc : c ∈ '\\' :: 'u' :: hexQuadChars m) :
    32 ≤ c.toNat := by
  rw [hexQuadChars] at hc
  simp only [List.mem_cons, List.not_mem_nil, or_false] at hc
  rcases hc with rfl | rfl | rfl | rfl | rfl | rfl
  · decide
  · decide
  · exact hexChar_ge _ (by omega)
  · exact hexChar_ge _ (by omega)
  · exact hexChar_ge _ (by omega)
  · exact hexChar_ge _ (by omega)

theorem uEsc_ge (n : Nat) : ∀ c ∈ uEsc n, 32 ≤ c.toNat := by
  intro c hc
  by_cases h : n < 0x10000
  · rw [uEsc, if_pos h] at hc
    exact uGroup_ge n c hc
  · rw [uEsc, if_neg h, List.mem_append] at hc
    rcases hc with hc | hc
    · exact uGroup_ge _ c hc
    · exact uGroup_ge _ c hc

theorem escSeqChar_ge (c0 : Char) : ∀ c ∈ escSeqChar c0, 32 ≤ c.toNat := by
  intro c hc
  unfold escSeqChar at hc
  repeat' split at hc
  all_goals first
    | exact uEsc_ge _ _ hc
    | (simp only [List.mem_cons, List.not_mem_nil, or_false] at hc
       rcases hc with rfl | rfl <;> decide)
    | (simp only [List.mem_singleton] at hc
       subst hc
       omega)

theorem escSeq_ge : ∀ s : List Char, ∀ c ∈ escSeq s, 32 ≤ c.toNat := by
  intro s
  induction s with
  | nil => simp [escSeq]
  | cons c0 t ih =>
    intro c hc
    simp only [escSeq, List.mem_append] at hc
    rcases hc with hc | hc
    · exact escSeqChar_ge c0 c hc
    · exact ih c hc

theorem natChars_ge (n : Nat) : ∀ c ∈ natChars n, 32 ≤ c.toNat := by
  intro c hc
  have hd := natChars_digits n c hc
  simp only [isDigitCh, decide_eq_true_eq] at hd
  omega

theorem intChars_ge (i : Int) : ∀ c ∈ intChars i, 32 ≤ c.toNat := by
  intro c hc
  cases i with
  | ofNat n => exact natChars_ge n c hc
  | negSucc m =>
    simp only [intChars, List.mem_cons] at hc
    rcases hc with rfl | hc
    · decide
    · exact natChars_ge (m + 1) c hc

theorem jdumpElems_ge_of : ∀ es : List Json,
    (∀ v ∈ es, ∀ c ∈ jdump v, 32 ≤ c.toNat) →
    (∀ c ∈ jdumpElems es, 32 ≤ c.toNat) ∧ (∀ c ∈ jdumpElemsRest es, 32 ≤ c.toNat) := by
  intro es
  induction es with
  | nil => intro _; constructor <;> simp [jdumpElems, jdumpElemsRest]
  | cons v vs ih =>
    intro hmem
    have hv := hmem v (List.mem_cons_self v vs)
    have htail := ih (fun x hx => hmem x (List.mem_cons_of_mem v hx))
    constructor
    · intro c hc
      simp only [jdumpElems, List.mem_append] at hc
      rcases hc with hc | hc
      · exact hv c hc
      · exact htail.2 c hc
    · intro c hc
      simp only [jdumpElemsRest, List.mem_cons, List.mem_append] at hc
      rcases hc with rfl | rfl | hc | hc
      · decide
      · decide
      · exact hv c hc
      · exact htail.2 c hc

theorem jdumpFields_ge_of : ∀ fs : List (String × Json),
    (∀ kv ∈ fs, ∀ c ∈ jdump kv.2, 32 ≤ c.toNat) →
    (∀ c ∈ jdumpFields fs, 32 ≤ c.toNat) ∧ (∀ c ∈ jdumpFieldsRest fs, 32 ≤ c.toNat) := by
  intro fs
  induction fs with
  | nil => intro _; constructor <;> simp [jdumpFields, jdumpFieldsRest]
  | cons kv fs ih =>
    obtain ⟨k, v⟩ := kv
    intro hmem
    have hv := hmem (k, v) (List.mem_cons_self (k, v) fs)
    have htail := ih (fun x hx => hmem x (List.mem_cons_of_mem (k, v) hx))
    constructor
    · intro c hc
      simp only [jdumpFields, List.mem_cons, List.mem_append] at hc
      rcases hc with rfl | hc | rfl | rfl | rfl | hc | hc
      · decide
      · exact escSeq_ge k.data c hc
      · decide
      · decide
      · decide
      · exact hv c hc
      · exact htail.2 c hc
    · intro c hc
      simp only [jdumpFieldsRest, List.mem_cons, List.mem_append] at hc
      rcases hc with rfl | rfl | rfl | hc | rfl | rfl | rfl | hc | hc
      · decide
      · decide
      · decide
      · exact escSeq_ge k.data c hc
      · decide
      · decide
      · decide
      · exact hv c hc
      · exact htail.2 c hc

theorem jdump_ge_aux : ∀ (k : Nat) (j : Json), sizeOf j ≤ k → ∀ c ∈ jdump j, 32 ≤ c.toNat := by
  intro k
  induction k with
  | zero =>
    intro j h
    cases j <;> simp at h
  | succ k ih =>
    intro j hk c hc
    cases j with
    | null =>
      simp only [jdump, List.mem_cons, List.not_mem_nil, or_false] at hc
      rcases hc with rfl | rfl | rfl | rfl <;> decide
    | bool b =>
      cases b <;>
        (simp only [jdump, List.mem_cons, List.not_mem_nil, or_false] at hc) <;>
        (rcases hc with rfl | rfl | rfl | rfl | rfl <;> decide)
    | num i =>
      simp only [jdump] at hc
      exact intChars_ge i c hc
    | str s =>
      simp only [jdump, List.mem_cons, List.mem_append, List.not_mem_nil, or_false] at hc
      rcases hc with rfl | hc | rfl
      · decide
      · exact escSeq_ge s.data c hc
      · decide
    | arr es =>
      have hsub : ∀ v ∈ es, ∀ c' ∈ jdump v, 32 ≤ c'.toNat := by
        intro v hv c' hc'
        have h1 : sizeOf v < sizeOf es := List.sizeOf_lt_of_mem hv
        have h2 : sizeOf (Json.arr es) = 1 + sizeOf es := by simp
        exact ih v (by omega) c' hc'
      simp only [jdump, List.mem_cons, List.mem_append, List.not_mem_nil, or_false] at hc
      rcases hc with rfl | hc | rfl
      · decide
      · exact (jdumpElems_ge_of es hsub).1 c hc
      · decide
    | obj fs =>
      have hsub : ∀ kv ∈ fs, ∀ c' ∈ jdump kv.2, 32 ≤ c'.toNat := by
        intro kv hkv c' hc'
        have h1 : sizeOf kv < sizeOf fs := List.sizeOf_lt_of_mem hkv
        have h2 : sizeOf (Json.obj fs) = 1 + sizeOf fs := by simp
        have h3 : sizeOf kv.2 < sizeOf kv := by
          obtain ⟨k0, v0⟩ := kv
          simp
        exact ih kv.2 (by omega) c' hc'
      simp only [jdump, List.mem_cons, List.mem_append, List.not_mem_nil, or_false] at hc
      rcases hc with rfl | hc | rfl
      · decide
      · exact (jdumpFields_ge_of fs hsub).1 c hc
      · decide

theorem jdump_printable (j : Json) : ∀ c ∈ jdump j, 32 ≤ c.toNat :=
  jdump_ge_aux (sizeOf j) j (Nat.le_refl _)

/-! Structure of rendered JSON: first and last characters. -/

theorem jdump_head (j : Json) :
    ∃ c t, jdump j = c :: t ∧ isJsonWs c = false ∧ c ≠ ']' ∧ c ≠ '\x7d' := by
  cases j with
  | null => exact ⟨'n', ['u', 'l', 'l'], by simp [jdump], by decide, by decide, by decide⟩
  | bool b =>
    cases b with
    | true => exact ⟨'t', ['r', 'u', 'e'], by simp [jdump], by decide, by decide, by decide⟩
    | false => exact ⟨'f', ['a', 'l', 's', 'e'], by simp [jdump], by decide, by decide, by decide⟩
  | num i =>
    cases i with
    | ofNat n =>
      obtain ⟨c, t, hct, hc⟩ := natChars_cons n
      have hf := digit_facts hc
      exact ⟨c, t, by simp [jdump, intChars, hct], hf.1, hf.2.2.1, hf.2.2.2.1⟩
    | negSucc m =>
      exact ⟨'-', natChars (m + 1), by simp [jdump, intChars], by decide, by decide, by decide⟩
  | str s => exact ⟨'"', escSeq s.data ++ ['"'], by simp [jdump], by decide, by decide, by decide⟩
  | arr es => exact ⟨'[', jdumpElems es ++ [']'], by simp [jdump], by decide, by decide, by decide⟩
  | obj fs =>
    exact ⟨'\x7b', jdumpFields fs ++ ['\x7d'], by simp [jdump], by decide, by decide, by decide⟩

theorem jdump_length_pos (j : Json) : 1 ≤ (jdump j).length := by
  obtain ⟨c, t, hct, -, -, -⟩ := jdump_head j
  simp [hct]

theorem jdump_last (j : Json) : ∃ t c, jdump j = t ++ [c] ∧ isStripWs c = false := by
  cases j with
  | null => exact ⟨['n', 'u', 'l'], 'l', by simp [jdump], by decide⟩
  | bool b =>
    cases b with
    | true => exact ⟨['t', 'r', 'u'], 'e', by simp [jdump], by decide⟩
    | false => exact ⟨['f', 'a', 'l', 's'], 'e', by simp [jdump], by decide⟩
  | num i =>
    cases i with
    | ofNat n =>
      obtain ⟨t, k, hk, hnt⟩ := natChars_last n
      exact ⟨t, digitChar k, by simp [jdump, intChars, hnt],
        (digit_facts (digitChar_spec k hk).2).2.1⟩
    | negSucc m =>
      obtain ⟨t, k, hk, hnt⟩ := natChars_last (m + 1)
      exact ⟨'-' :: t, digitChar k, by simp [jdump, intChars, hnt],
        (digit_facts (digitChar_spec k hk).2).2.1⟩
  | str s => exact ⟨'"' :: escSeq s.data, '"', by simp [jdump], by decide⟩
  | arr es => exact ⟨'[' :: jdumpElems es, ']', by simp [jdump], by decide⟩
  | obj fs => exact ⟨'\x7b' :: jdumpFields fs, '\x7d', by simp [jdump], by decide⟩

theorem dropWs_cons_of {c : Char} (h : isJsonWs c = false) (l : List Char) :
    dropWs (c :: l) = c :: l := by
  simp [dropWs, List.dropWhile_cons, h]

theorem dropWs_jdump (j : Json) (x : List Char) : dropWs (jdump j ++ x) = jdump j ++ x := by
  obtain ⟨c, t, hct, hws, -, -⟩ := jdump_head j
  rw [hct, List.cons_append]
  exact dropWs_cons_of hws _

/-! One-step unfoldings of the fuelled value parser (definitional). -/

theorem pvalue_step (fuel : Nat) (input : List Char) :
    pvalue (fuel + 1) input
      = (match dropWs input with
         | [] => none
         | c :: rest =>
           if c = '"' then (parseJStr rest).map fun pr => (Json.str ⟨pr.1⟩, pr.2)
           else if c = '[' then
             match dropWs rest with
             | [] => none
             | d :: r => if d = ']' then some (Json.arr [], r)
                         else (pelems fuel (d :: r)).map fun pr => (Json.arr pr.1, pr.2)
           else if c = '\x7b' then
             match dropWs rest with
             | [] => none
             | d :: r => if d = '\x7d' then some (Json.obj [], r)
                         else (pfields fuel (d :: r)).map fun pr => (Json.obj pr.1, pr.2)
           else if c = 'n' then
             match rest with
             | 'u' :: 'l' :: 'l' :: r => some (Json.null, r)
             | _ => none
           else if c = 't' then
             match rest with
             | 'r' :: 'u' :: 'e' :: r => some (Json.bool true, r)
             | _ => none
           else if c = 'f' then
             match rest with
             | 'a' :: 'l' :: 's' :: 'e' :: r => some (Json.bool false, r)
             | _ => none
           else if c = '-' ∨ isDigitCh c then
             (parseIntTok (c :: rest)).map fun pr => (Json.num pr.1, pr.2)
           else none) := rfl

theorem pelems_step (fuel : Nat) (input : List Char) :
    pelems (fuel + 1) input
      = (match pvalue fuel input with
         | none => none
         | some (v, r) =>
           match dropWs r with
           | [] => none
           | d :: r2 =>
             if d = ',' then (pelems fuel r2).map fun pr => (v :: pr.1, pr.2)
             else if d = ']' then some ([v], r2)
             else none) := rfl

theorem pfields_step (fuel : Nat) (input : List Char) :
    pfields (fuel + 1) input
      = (match dropWs input with
         | [] => none
         | c :: rest =>
           if c = '"' then
             match parseJStr rest with
             | none => none
             | some (k, r1) =>
               match dropWs r1 with
               | [] => none
               | d :: r2 =>
                 if d = ':' then
                   match pvalue fuel r2 with
                   | none => none
                   | some (v, r3) =>
                     match dropWs r3 with
                     | [] => none
                     | e :: r4 =>
                       if e = ',' then (pfields fuel r4).map fun pr => ((⟨k⟩, v) :: pr.1, pr.2)
                       else if e = '\x7d' then some ([(⟨k⟩, v)], r4)
                       else none
                 else none
           else none) := rfl

theorem pvalue_space (fuel : Nat) (x : List Char) : pvalue fuel (' ' :: x) = pvalue fuel x := by
  cases fuel with
  | zero => rfl
  | succ g => rfl

theorem pelems_space (fuel : Nat) (x : List Char) : pelems fuel (' ' :: x) = pelems fuel x := by
  cases fuel with
  | zero => rfl
  | succ g =>
    rw [pelems_step, pelems_step, pvalue_space]

theorem pfields_space (fuel : Nat) (x : List Char) : pfields fuel (' ' :: x) = pfields fuel x := by
  cases fuel with
  | zero => rfl
  | succ g => rfl

/-! Separator equations and head-specialised parser steps. -/

theorem jdumpElemsRest_cons (v : Json) (vs : List Json) :
    jdumpElemsRest (v :: vs) = ',' :: ' ' :: jdumpElems (v :: vs) := by
  simp [jdumpElemsRest, jdumpElems]

theorem jdumpFieldsRest_cons (k : String) (v : Json) (fs : List (String × Json)) :
    jdumpFieldsRest ((k, v) :: fs) = ',' :: ' ' :: jdumpFields ((k, v) :: fs) := by
  simp [jdumpFieldsRest, jdumpFields]

theorem pvalue_quote (fuel : Nat) (tl : List Char) :
    pvalue (fuel + 1) ('"' :: tl)
      = (parseJStr tl).map fun pr => (Json.str ⟨pr.1⟩, pr.2) := rfl

theorem pvalue_lbrack (fuel : Nat) (tl : List Char) :
    pvalue (fuel + 1) ('[' :: tl)
      = (match dropWs tl with
         | [] => none
         | d :: r => if d = ']' then some (Json.arr [], r)
                     else (pelems fuel (d :: r)).map fun pr => (Json.arr pr.1, pr.2)) := rfl

theorem pvalue_lbrace (fuel : Nat) (tl : List Char) :
    pvalue (fuel + 1) ('\x7b' :: tl)
      = (match dropWs tl with
         | [] => none
         | d :: r => if d = '\x7d' then some (Json.obj [], r)
                     else (pfields fuel (d :: r)).map fun pr => (Json.obj pr.1, pr.2)) := rfl

theorem pvalue_num_head (fuel : Nat) (c : Char) (tl : List Char)
    (hws : isJsonWs c = false) (h1 : c ≠ '"') (h2 : c ≠ '[') (h3 : c ≠ '\x7b')
    (h4 : c ≠ 'n') (h5 : c ≠ 't') (h6 : c ≠ 'f') (h7 : c = '-' ∨ isDigitCh c) :
    pvalue (fuel + 1) (c :: tl)
      = (parseIntTok (c :: tl)).map fun pr => (Json.num pr.1, pr.2) := by
  rw [pvalue_step, dropWs_cons_of hws]
  simp only [if_neg h1, if_neg h2, if_neg h3, if_neg h4, if_neg h5, if_neg h6, if_pos h7]

theorem pfields_quote (fuel : Nat) (tl : List Char) :
    pfields (fuel + 1) ('"' :: tl)
      = (match parseJStr tl with
         | none => none
         | some (k, r1) =>
           match dropWs r1 with
           | [] => none
           | d :: r2 =>
             if d = ':' then
               match pvalue fuel r2 with
               | none => none
               | some (v, r3) =>
                 match dropWs r3 with
                 | [] => none
                 | e :: r4 =>
                   if e = ',' then (pfields fuel r4).map fun pr => ((⟨k⟩, v) :: pr.1, pr.2)
                   else if e = '\x7d' then some ([(⟨k⟩, v)], r4)
                   else none
             else none) := rfl

theorem jdump_arr_cons (v : Json) (vs : List Json) (x : List Char) :
    jdump (Json.arr (v :: vs)) ++ x
      = '[' :: (jdump v ++ (jdumpElemsRest vs ++ ']' :: x)) := by
  simp [jdump, jdumpElems]

theorem jdump_obj_cons (k : String) (v : Json) (fs : List (String × Json)) (x : List Char) :
    jdump (Json.obj ((k, v) :: fs)) ++ x
      = '\x7b' :: (jdumpFields ((k, v) :: fs) ++ '\x7d' :: x) := by
  simp [jdump]

theorem jdumpFields_cons_eq (k : String) (v : Json) (fs : List (String × Json)) :
    jdumpFields ((k, v) :: fs)
      = '"' :: (escSeq k.data ++ '"' :: ':' :: ' ' :: (jdump v ++ jdumpFieldsRest fs)) := by
  simp [jdumpFields]

theorem jdump_arr_cons_length (v : Json) (vs : List Json) :
    (jdump (Json.arr (v :: vs))).length
      = (jdump v).length + (jdumpElemsRest vs).length + 2 := by
  simp [jdump, jdumpElems]
  omega

theorem jdump_obj_cons_length (k : String) (v : Json) (fs : List (String × Json)) :
    (jdump (Json.obj ((k, v) :: fs))).length
      = (jdumpFields ((k, v) :: fs)).length + 2 := by
  simp [jdump]

theorem jdumpElemsRest_cons_length (v : Json) (vs : List Json) :
    (jdumpElemsRest (v :: vs)).length
      = (jdump v).length + (jdumpElemsRest vs).length + 2 := by
  simp [jdumpElemsRest]

theorem jdumpFields_cons_length (k : String) (v : Json) (fs : List (String × Json)) :
    (jdumpFields ((k, v) :: fs)).length
      = (escSeq k.data).length + (jdump v).length + (jdumpFieldsRest fs).length + 4 := by
  simp [jdumpFields]
  omega

theorem jdumpFieldsRest_cons_length (k : String) (v : Json) (fs : List (String × Json)) :
    (jdumpFieldsRest ((k, v) :: fs)).length
      = (jdumpFields ((k, v) :: fs)).length + 2 := by
  rw [jdumpFieldsRest_cons]
  simp

theorem stopsNum_elemsRest (vs : List Json) (rest : List Char) :
    stopsNum (jdumpElemsRest vs ++ ']' :: rest) = true := by
  cases vs with
  | nil => simp [jdumpElemsRest]; rfl
  | cons v' vs' => rw [jdumpElemsRest_cons]; rfl

theorem stopsNum_fieldsRest (fs : List (String × Json)) (rest : List Char) :
    stopsNum (jdumpFieldsRest fs ++ '\x7d' :: rest) = true := by
  cases fs with
  | nil => simp [jdumpFieldsRest]; rfl
  | cons f fs' =>
    obtain ⟨k', v'⟩ := f
    rw [jdumpFieldsRest_cons]
    rfl

/-! The parser recovers every dumped value: a simultaneous fuel induction
for values, array tails and object tails. -/

theorem roundtrip_all : ∀ fuel : Nat,
    (∀ j rest, (jdump j).length < fuel → stopsNum rest = true →
      pvalue fuel (jdump j ++ rest) = some (j, rest)) ∧
    (∀ v vs rest, (jdump v).length + (jdumpElemsRest vs).length + 1 < fuel →
      pelems fuel (jdump v ++ (jdumpElemsRest vs ++ ']' :: rest)) = some (v :: vs, rest)) ∧
    (∀ k v fs rest, (jdumpFields ((k, v) :: fs)).length < fuel →
      pfields fuel (jdumpFields ((k, v) :: fs) ++ '\x7d' :: rest)
        = some ((k, v) :: fs, rest)) := by
  intro fuel
  induction fuel with
  | zero =>
    exact ⟨fun j rest hf _ => absurd hf (by omega),
           fun v vs rest hf => absurd hf (by omega),
           fun k v fs rest hf => absurd hf (by omega)⟩
  | succ fuel ih =>
    obtain ⟨ihA, ihB, ihC⟩ := ih
    refine ⟨?_, ?_, ?_⟩
    · intro j rest hf hr
      cases j with
      | null =>
        rw [show jdump Json.null = ['n', 'u', 'l', 'l'] from by simp [jdump]]
        rfl
      | bool b =>
        cases b with
        | true =>
          rw [show jdump (Json.bool true) = ['t', 'r', 'u', 'e'] from by simp [jdump]]
          rfl
        | false =>
          rw [show jdump (Json.bool false) = ['f', 'a', 'l', 's', 'e'] from by simp [jdump]]
          rfl
      | num i =>
        cases i with
        | ofNat n =>
          obtain ⟨c, t, hct, hcd⟩ := natChars_cons n
          obtain ⟨hws, -, -, -, -, hq, hlb, hlbr, hn, ht2, hfch, -, -, -, -⟩ := digit_facts hcd
          have hin : jdump (Json.num (Int.ofNat n)) ++ rest = c :: (t ++ rest) := by
            simp [jdump, intChars, hct]
          rw [hin, pvalue_num_head fuel c (t ++ rest) hws hq hlb hlbr hn ht2 hfch (Or.inr hcd)]
          have h := parseIntTok_intChars (Int.ofNat n) rest hr
          rw [show intChars (Int.ofNat n) ++ rest = c :: (t ++ rest) from by
            simp [intChars, hct]] at h
          rw [h]
          rfl
        | negSucc m =>
          have hin : jdump (Json.num (Int.negSucc m)) ++ rest
              = '-' :: (natChars (m + 1) ++ rest) := by
            simp [jdump, intChars]
          rw [hin, pvalue_num_head fuel '-' (natChars (m + 1) ++ rest) (by decide) (by decide)
            (by decide) (by decide) (by decide) (by decide) (by decide) (Or.inl rfl)]
          have h := parseIntTok_intChars (Int.negSucc m) rest hr
          rw [show intChars (Int.negSucc m) ++ rest = '-' :: (natChars (m + 1) ++ rest) from by
            simp [intChars]] at h
          rw [h]
          rfl
      | str s =>
        have hin : jdump (Json.str s) ++ rest = '"' :: (escSeq s.data ++ '"' :: rest) := by
          simp [jdump]
        rw [hin, pvalue_quote, parseJStr_escSeq]
        rfl
      | arr es =>
        cases es with
        | nil =>
          rw [show jdump (Json.arr []) = ['[', ']'] from by simp [jdump, jdumpElems]]
          rfl
        | cons v vs =>
          rw [jdump_arr_cons, pvalue_lbrack]
          obtain ⟨c, t, hct, hws, hrb, -⟩ := jdump_head v
          rw [hct, List.cons_append, dropWs_cons_of hws]
          simp only [if_neg hrb]
          rw [← List.cons_append, ← hct]
          have hlen := jdump_arr_cons_length v vs
          rw [ihB v vs rest (by omega)]
          rfl
      | obj fs =>
        cases fs with
        | nil =>
          rw [show jdump (Json.obj []) = ['\x7b', '\x7d'] from by simp [jdump, jdumpFields]]
          rfl
        | cons f fs2 =>
          obtain ⟨k, v⟩ := f
          rw [jdump_obj_cons, pvalue_lbrace]
          rw [jdumpFields_cons_eq, List.cons_append, dropWs_cons_of (by decide)]
          simp only [if_neg (by decide : ¬('"' = '\x7d'))]
          rw [← List.cons_append, ← jdumpFields_cons_eq]
          have hlen := jdump_obj_cons_length k v fs2
          rw [ihC k v fs2 rest (by omega)]
          rfl
    · intro v vs rest hfl
      rw [pelems_step]
      have hpv : pvalue fuel (jdump v ++ (jdumpElemsRest vs ++ ']' :: rest))
          = some (v, jdumpElemsRest vs ++ ']' :: rest) :=
        ihA v _ (by omega) (stopsNum_elemsRest vs rest)
      rw [hpv]
      cases vs with
      | nil =>
        rw [show jdumpElemsRest ([] : List Json) ++ ']' :: rest = ']' :: rest from by
          simp [jdumpElemsRest]]
        rfl
      | cons v2 vs2 =>
        rw [jdumpElemsRest_cons, List.cons_append, List.cons_append]
        show (pelems fuel (' ' :: (jdumpElems (v2 :: vs2) ++ ']' :: rest))).map
            (fun pr => (v :: pr.1, pr.2)) = some (v :: v2 :: vs2, rest)
        rw [pelems_space]
        rw [show jdumpElems (v2 :: vs2) = jdump v2 ++ jdumpElemsRest vs2 from by
          simp [jdumpElems]]
        rw [List.append_assoc]
        have h1 := jdump_length_pos v
        have h2 := jdumpElemsRest_cons_length v2 vs2
        rw [ihB v2 vs2 rest (by omega)]
        rfl
    · intro k v fs rest hfl
      rw [jdumpFields_cons_eq, List.cons_append, pfields_quote]
      rw [show (escSeq k.data ++ '"' :: ':' :: ' ' :: (jdump v ++ jdumpFieldsRest fs))
            ++ '\x7d' :: rest
          = escSeq k.data
            ++ '"' :: (':' :: ' ' :: (jdump v ++ (jdumpFieldsRest fs ++ '\x7d' :: rest))) from by
        simp]
      rw [parseJStr_escSeq]
      show (match pvalue fuel (' ' :: (jdump v ++ (jdumpFieldsRest fs ++ '\x7d' :: rest))) with
            | none => none
            | some (v2, r3) =>
              match dropWs r3 with
              | [] => none
              | e :: r4 =>
                if e = ',' then (pfields fuel r4).map fun pr => ((⟨k.data⟩, v2) :: pr.1, pr.2)
                else if e = '\x7d' then some ([(⟨k.data⟩, v2)], r4)
                else none)
          = some ((k, v) :: fs, rest)
      rw [pvalue_space]
      have hlen := jdumpFields_cons_length k v fs
      have hpv : pvalue fuel (jdump v ++ (jdumpFieldsRest fs ++ '\x7d' :: rest))
          = some (v, jdumpFieldsRest fs ++ '\x7d' :: rest) :=
        ihA v _ (by omega) (stopsNum_fieldsRest fs rest)
      rw [hpv]
      cases fs with
      | nil =>
        rw [show jdumpFieldsRest ([] : List (String × Json)) ++ '\x7d' :: rest
            = '\x7d' :: rest from by simp [jdumpFieldsRest]]
        rfl
      | cons f fs2 =>
        obtain ⟨k2, v2⟩ := f
        rw [jdumpFieldsRest_cons, List.cons_append, List.cons_append]
        show (pfields fuel (' ' :: (jdumpFields ((k2, v2) :: fs2) ++ '\x7d' :: rest))).map
            (fun pr => ((⟨k.data⟩, v) :: pr.1, pr.2)) = some ((k, v) :: (k2, v2) :: fs2, rest)
        rw [pfields_space]
        have h1 := jdump_length_pos v
        have h2 := jdumpFieldsRest_cons_length k2 v2 fs2
        rw [ihC k2 v2 fs2 rest (by omega)]
        rfl

theorem loadsChars_jdump (j : Json) : loadsChars (jdump j) = some j := by
  unfold loadsChars
  have h := (roundtrip_all ((jdump j).length + 1)).1 j [] (by omega) rfl
  rw [List.append_nil] at h
  rw [h]
  rfl

/-! `str.split('\n')` on newline-free segments. -/

theorem linesOf_no_newline (a : List Char) (ha : '\n' ∉ a) : linesOf a = [a] := by
  induction a with
  | nil => rfl
  | cons c t ih =>
    have hc : ¬(c = '\n') := fun h => ha (h ▸ List.mem_cons_self c t)
    have ht : '\n' ∉ t := fun h => ha (List.mem_cons_of_mem _ h)
    simp [linesOf, hc, ih ht]

theorem linesOf_append (a b : List Char) (ha : '\n' ∉ a) :
    linesOf (a ++ '\n' :: b) = a :: linesOf b := by
  induction a with
  | nil => simp [linesOf]
  | cons c t ih =>
    have hc : ¬(c = '\n') := fun h => ha (h ▸ List.mem_cons_self c t)
    have ht : '\n' ∉ t := fun h => ha (List.mem_cons_of_mem _ h)
    simp [linesOf, hc, ih ht]

theorem newline_not_in_jdump (j : Json) : '\n' ∉ jdump j := by
  intro h
  have := jdump_printable j '\n' h
  exact absurd this (by decide)

theorem dropStrip_cons_of {c : Char} (h : isStripWs c = false) (l : List Char) :
    List.dropWhile isStripWs (c :: l) = c :: l := by
  simp [List.dropWhile_cons, h]

theorem dropStrip_ws_cons (c : Char) (l : List Char) (h : isStripWs c = true) :
    List.dropWhile isStripWs (c :: l) = List.dropWhile isStripWs l := by
  simp [List.dropWhile_cons, h]

theorem stripEnds_encodeFrame (j : Json) :
    stripEnds (encodeFrame j) = "event: message\ndata: ".data ++ jdump j := by
  obtain ⟨t, c, htc, hc⟩ := jdump_last j
  have hfront : List.dropWhile isStripWs (encodeFrame j)
      = "event: message\ndata: ".data ++ jdump j ++ ['\r', '\n', '\r', '\n'] := by
    rw [encodeFrame, show ("event: message\ndata: ".data : List Char)
        = 'e' :: "vent: message\ndata: ".data from rfl]
    rw [List.cons_append, List.cons_append]
    exact dropStrip_cons_of (by decide) _
  unfold stripEnds
  rw [hfront, htc]
  rw [show ((("event: message\ndata: ".data : List Char) ++ (t ++ [c]))
        ++ ['\r', '\n', '\r', '\n']).reverse
      = '\n' :: '\r' :: '\n' :: '\r'
        :: (c :: (t.reverse ++ ("event: message\ndata: ".data : List Char).reverse)) from by
    simp]
  rw [dropStrip_ws_cons _ _ (by decide), dropStrip_ws_cons _ _ (by decide),
    dropStrip_ws_cons _ _ (by decide), dropStrip_ws_cons _ _ (by decide),
    dropStrip_cons_of hc]
  simp

theorem decode_encode (j : Json) : decodeFrame (encodeFrame j) = some j := by
  have hnn : '\n' ∉ ("data: ".data : List Char) ++ jdump j := by
    intro h
    rcases List.mem_append.mp h with h1 | h2
    · exact absurd h1 (by decide)
    · exact newline_not_in_jdump j h2
  have hlines : linesOf (stripEnds (encodeFrame j))
      = ["event: message".data, "data: ".data ++ jdump j] := by
    rw [stripEnds_encodeFrame]
    rw [show ("event: message\ndata: ".data : List Char) ++ jdump j
        = "event: message".data ++ '\n' :: (("data: ".data : List Char) ++ jdump j) from rfl]
    rw [linesOf_append _ _ (by decide), linesOf_no_newline _ hnn]
  have hpos : dataHead.isPrefixOf (("data: ".data : List Char) ++ jdump j) = true := by
    rw [show (("data: ".data : List Char) ++ jdump j)
        = 'd' :: 'a' :: 't' :: 'a' :: ':' :: ' ' :: jdump j from rfl]
    rw [show dataHead = ['d', 'a', 't', 'a', ':', ' '] from rfl]
    simp [List.isPrefixOf_cons₂, List.isPrefixOf_nil_left]
  unfold decodeFrame
  rw [hlines]
  rw [List.find?_cons_of_neg _ (by decide), List.find?_cons_of_pos _ hpos]
  show loadsChars ((("data: ".data : List Char) ++ jdump j).drop 6) = some j
  rw [show (("data: ".data : List Char) ++ jdump j).drop 6 = jdump j from rfl]
  exact loadsChars_jdump j

/-- C9: for every frame that decodes successfully — its first `data: ` line
parses as a JSON-RPC object — encoding the decoded object into the canonical
`event: message\ndata: <json>\r\n\r\n` frame and decoding that frame again
yields a structurally identical object: the codec round-trips. -/
theorem claim_C9 (l : List Char) (j : Json) (h : decodeFrame l = some j) :
    decodeFrame (encodeFrame j) = some j := decode_encode j

theorem claim_C9_witness :
    decodeFrame "data: 7".data = some (Json.num 7) ∧
    decodeFrame (encodeFrame (Json.num 7)) = some (Json.num 7) :=
  ⟨rfl, claim_C9 "data: 7".data (Json.num 7) rfl⟩
